import Mathlib

/-
Verification development for the prompt-template-registry library.

The definitions below are a shallow embedding of the JavaScript source:
  * `index.mjs` (the core library: compareVersions, isTrustedDomain,
    fetchRemoteRegistry, validateRemoteSchema, mergeRegistries,
    saveLocalRegistry, sync, get, search), and
  * `multi-llm-variants.js` (getModelCategory, getPromptVariant).

JavaScript objects are modelled as association lists `List (String × α)`:
lookup returns the first binding for a key, and assignment `obj[k] = v`
replaces the binding in place when the key is present and appends a new
binding otherwise (this is exactly the key/iteration-order behaviour of
plain JS objects).  Objects produced by the JS runtime never contain a
duplicate key, which is expressed where needed by `Nodup` hypotheses on
the key lists.
-/

set_option maxHeartbeats 1000000

namespace PromptRegistry

/-! ## Association-list model of JavaScript objects -/

/-- JS property read `obj[k]`: the first binding for key `k`. -/
def lookupA {α : Type} (k : String) : List (String × α) → Option α
  | [] => none
  | (k', v) :: rest => if k' = k then some v else lookupA k rest

/-- Keys of a JS object, in iteration order. -/
def keysA {α : Type} (m : List (String × α)) : List String :=
  m.map Prod.fst

/-- JS property write `obj[k] = v`: replaces the binding in place when the
key is present, otherwise appends a new binding at the end. -/
def insertA {α : Type} (k : String) (v : α) (m : List (String × α)) :
    List (String × α) :=
  if (lookupA k m).isSome then
    m.map (fun p => if p.1 = k then (k, v) else p)
  else m ++ [(k, v)]

@[simp] theorem lookupA_nil {α : Type} (k : String) :
    lookupA k ([] : List (String × α)) = none := rfl

@[simp] theorem lookupA_cons {α : Type} (k k' : String) (v : α) (m : List (String × α)) :
    lookupA k ((k', v) :: m) = if k' = k then some v else lookupA k m := rfl

theorem lookupA_eq_none_iff {α : Type} (k : String) (m : List (String × α)) :
    lookupA k m = none ↔ k ∉ keysA m := by
  induction m with
  | nil => simp [keysA]
  | cons p rest ih =>
    obtain ⟨k', v⟩ := p
    by_cases h : k' = k
    · subst h; simp [keysA]
    · simp [keysA, h, Ne.symm h] at ih ⊢
      exact ih

theorem lookupA_isSome_iff {α : Type} (k : String) (m : List (String × α)) :
    (lookupA k m).isSome = true ↔ k ∈ keysA m := by
  rw [Option.isSome_iff_ne_none]
  constructor
  · intro h
    by_contra hk
    exact h ((lookupA_eq_none_iff k m).2 hk)
  · intro h hn
    exact ((lookupA_eq_none_iff k m).1 hn) h

theorem lookupA_map_update_self {α : Type} (k : String) (v : α) (m : List (String × α))
    (h : (lookupA k m).isSome = true) :
    lookupA k (m.map (fun p => if p.1 = k then (k, v) else p)) = some v := by
  induction m with
  | nil => simp at h
  | cons p rest ih =>
    obtain ⟨k', w⟩ := p
    by_cases hk : k' = k
    · subst hk; simp
    · simp only [lookupA_cons, hk, if_false] at h
      simp only [List.map_cons]
      have : (if (k', w).1 = k then (k, v) else (k', w)) = (k', w) := by simp [hk]
      rw [this]
      simp [hk, ih h]

theorem lookupA_append_right {α : Type} (k : String) (m₁ m₂ : List (String × α))
    (h : lookupA k m₁ = none) :
    lookupA k (m₁ ++ m₂) = lookupA k m₂ := by
  induction m₁ with
  | nil => simp
  | cons p rest ih =>
    obtain ⟨k', w⟩ := p
    by_cases hk : k' = k
    · subst hk; simp at h
    · simp only [lookupA_cons, hk, if_false] at h
      simp [hk, ih h]

theorem lookupA_insertA_self {α : Type} (k : String) (v : α) (m : List (String × α)) :
    lookupA k (insertA k v m) = some v := by
  unfold insertA
  by_cases h : (lookupA k m).isSome = true
  · rw [if_pos h]
    exact lookupA_map_update_self k v m h
  · rw [if_neg h]
    have hn : lookupA k m = none := by
      cases he : lookupA k m
      · rfl
      · rw [he] at h; simp at h
    rw [lookupA_append_right k m _ hn]
    simp

theorem lookupA_map_update_ne {α : Type} (k k' : String) (v : α) (m : List (String × α))
    (h : k' ≠ k) :
    lookupA k' (m.map (fun p => if p.1 = k then (k, v) else p)) = lookupA k' m := by
  induction m with
  | nil => simp
  | cons p rest ih =>
    obtain ⟨k₁, w⟩ := p
    by_cases hk : k₁ = k
    · subst hk
      have h₁ : ¬ (k₁ = k') := fun he => h he.symm
      simp [h₁, ih]
    · simp only [List.map_cons]
      have : (if (k₁, w).1 = k then (k, v) else (k₁, w)) = (k₁, w) := by simp [hk]
      rw [this]
      by_cases hk' : k₁ = k'
      · subst hk'; simp
      · simp [hk', ih]

theorem lookupA_append_one_ne {α : Type} (k k' : String) (v : α) (m : List (String × α))
    (h : k' ≠ k) :
    lookupA k' (m ++ [(k, v)]) = lookupA k' m := by
  induction m with
  | nil => simp [Ne.symm h]
  | cons p rest ih =>
    obtain ⟨k₁, w⟩ := p
    by_cases hk' : k₁ = k'
    · subst hk'; simp
    · simp [hk', ih]

theorem lookupA_insertA_ne {α : Type} (k k' : String) (v : α) (m : List (String × α))
    (h : k' ≠ k) :
    lookupA k' (insertA k v m) = lookupA k' m := by
  unfold insertA
  by_cases hs : (lookupA k m).isSome = true
  · rw [if_pos hs]
    exact lookupA_map_update_ne k k' v m h
  · rw [if_neg hs]
    exact lookupA_append_one_ne k k' v m h

theorem keysA_insertA_present {α : Type} (k : String) (v : α) (m : List (String × α))
    (h : (lookupA k m).isSome = true) :
    keysA (insertA k v m) = keysA m := by
  unfold insertA
  rw [if_pos h]
  unfold keysA
  rw [List.map_map]
  congr 1
  funext p
  by_cases hp : p.1 = k
  · simp [hp]
  · simp [hp]

theorem keysA_insertA_absent {α : Type} (k : String) (v : α) (m : List (String × α))
    (h : ¬ (lookupA k m).isSome = true) :
    keysA (insertA k v m) = keysA m ++ [k] := by
  unfold insertA
  rw [if_neg h]
  simp [keysA]

theorem keysA_nodup_insertA {α : Type} (k : String) (v : α) (m : List (String × α))
    (h : (keysA m).Nodup) :
    (keysA (insertA k v m)).Nodup := by
  by_cases hs : (lookupA k m).isSome = true
  · rw [keysA_insertA_present k v m hs]; exact h
  · rw [keysA_insertA_absent k v m hs]
    have hn : lookupA k m = none := by
      cases he : lookupA k m
      · rfl
      · rw [he] at hs; simp at hs
    have hk : k ∉ keysA m := (lookupA_eq_none_iff k m).1 hn
    simp [List.nodup_append, h, hk]

theorem lookupA_isSome_insertA {α : Type} (k k' : String) (v : α) (m : List (String × α))
    (h : (lookupA k m).isSome = true) :
    (lookupA k (insertA k' v m)).isSome = true := by
  by_cases hk : k = k'
  · subst hk; rw [lookupA_insertA_self]; rfl
  · rw [lookupA_insertA_ne k' k v m hk]; exact h

theorem map_update_id {α : Type} (k : String) (v : α) (m : List (String × α))
    (h : lookupA k m = none) :
    m.map (fun p => if p.1 = k then (k, v) else p) = m := by
  induction m with
  | nil => simp
  | cons p rest ih =>
    obtain ⟨k₁, w⟩ := p
    by_cases hk : k₁ = k
    · subst hk; simp at h
    · simp only [lookupA_cons, hk, if_false] at h
      simp only [List.map_cons]
      have : (if (k₁, w).1 = k then (k, v) else (k₁, w)) = (k₁, w) := by simp [hk]
      rw [this, ih h]

theorem insertA_of_lookup_eq {α : Type} (k : String) (v : α) :
    ∀ (m : List (String × α)), (keysA m).Nodup → lookupA k m = some v →
      insertA k v m = m := by
  intro m
  induction m with
  | nil => intro _ h; simp at h
  | cons p rest ih =>
    intro hnd h
    obtain ⟨k₁, w⟩ := p
    have hnd₁ : k₁ ∉ keysA rest := by
      have := hnd
      simp only [keysA, List.map_cons, List.nodup_cons] at this
      exact this.1
    have hnd₂ : (keysA rest).Nodup := by
      have := hnd
      simp only [keysA, List.map_cons, List.nodup_cons] at this
      exact this.2
    unfold insertA
    rw [if_pos (by rw [h]; rfl)]
    by_cases hk : k₁ = k
    · subst hk
      have hwv : w = v := by simpa using h
      subst hwv
      simp only [List.map_cons, List.cons.injEq]
      refine ⟨by simp, ?_⟩
      exact map_update_id k₁ w rest ((lookupA_eq_none_iff k₁ rest).2 hnd₁)
    · simp only [lookupA_cons, hk, if_false] at h
      simp only [List.map_cons]
      have heq : (if (k₁, w).1 = k then (k, v) else (k₁, w)) = (k₁, w) := by simp [hk]
      rw [heq]
      have := ih hnd₂ h
      unfold insertA at this
      rw [if_pos (by rw [h]; rfl)] at this
      rw [this]

/-! ## VersionComparator (`compareVersions`, index.mjs lines 293-306)

`compareVersions` splits each version string on `.` and maps each component
through JS `Number`, then walks the components left to right with
`aParts[i] || 0` supplying `0` for missing components (and collapsing the
`NaN` produced by a non-numeric component to `0`, since `NaN` is falsy).
-/

/-- JS `String.prototype.split(sep)` over characters: splits on every
occurrence of `sep`, keeping empty components (`"".split "."` is `[""]`,
`"1..2"` is `["1", "", "2"]`).  `acc` holds the current component,
reversed. -/
def splitOnChar (sep : Char) : List Char → List Char → List (List Char)
  | [], acc => [acc.reverse]
  | c :: cs, acc =>
    if c = sep then acc.reverse :: splitOnChar sep cs []
    else splitOnChar sep cs (c :: acc)

/-- Leading and trailing whitespace removal, as JS `Number` performs on its
argument. -/
def trimChars (cs : List Char) : List Char :=
  ((cs.dropWhile Char.isWhitespace).reverse.dropWhile Char.isWhitespace).reverse

/-- Decimal value of a digit string. -/
def digitsToNat (ds : List Char) : Nat :=
  ds.foldl (fun n c => n * 10 + (c.toNat - '0'.toNat)) 0

/-- JS `Number(s)` as used on a version component, composed with the `|| 0`
read in the comparison loop: the empty or all-blank string is `0`, an
optionally signed digit string is its integer value, and anything else
(which `Number` turns into the falsy `NaN`) is read back as `0`.
Exotic numeric spellings (hex, exponents) also fall to `0` here; they do
not occur in version strings. -/
def parseNum (cs0 : List Char) : Int :=
  let t := trimChars cs0
  if t = [] then 0
  else
    match t with
    | '-' :: rest =>
      if rest ≠ [] ∧ rest.all Char.isDigit then -(digitsToNat rest : Int) else 0
    | '+' :: rest =>
      if rest ≠ [] ∧ rest.all Char.isDigit then (digitsToNat rest : Int) else 0
    | ds => if ds.all Char.isDigit then (digitsToNat ds : Int) else 0

/-- The tail of the comparison loop once the left list is exhausted:
every remaining left component reads as `0`. -/
def cmpZeroLeft : List Int → Int
  | [] => 0
  | b :: bs => if 0 > b then 1 else if 0 < b then -1 else cmpZeroLeft bs

/-- The tail of the comparison loop once the right list is exhausted:
every remaining right component reads as `0`. -/
def cmpZeroRight : List Int → Int
  | [] => 0
  | a :: as => if a > 0 then 1 else if a < 0 then -1 else cmpZeroRight as

/-- The loop of `compareVersions`: compare components left to right,
returning on the first difference, with missing components read as `0`. -/
def cmpParts : List Int → List Int → Int
  | [], bs => cmpZeroLeft bs
  | a :: as, [] => if a > 0 then 1 else if a < 0 then -1 else cmpZeroRight as
  | a :: as, b :: bs => if a > b then 1 else if a < b then -1 else cmpParts as bs

/-- `a.split('.').map(Number)` from `compareVersions`. -/
def versionParts (s : String) : List Int :=
  (splitOnChar '.' s.toList []).map parseNum

/-- `compareVersions` from index.mjs: `-1` if `a < b`, `0` if equal,
`1` if `a > b`. -/
def compareVersions (a b : String) : Int :=
  cmpParts (versionParts a) (versionParts b)

theorem cmpParts_nil_right (as : List Int) : cmpParts as [] = cmpZeroRight as := by
  cases as <;> rfl

/-- Uniform one-step unfolding of the comparison loop: every call compares
the heads (missing heads read as `0`) and recurses on the tails. -/
theorem cmpParts_unfold (as bs : List Int) :
    cmpParts as bs =
      if as.headD 0 > bs.headD 0 then 1
      else if as.headD 0 < bs.headD 0 then -1
      else cmpParts as.tail bs.tail := by
  cases as with
  | nil =>
    cases bs with
    | nil => simp [cmpParts, cmpZeroLeft]
    | cons b bs => rfl
  | cons a as =>
    cases bs with
    | nil =>
      rw [cmpParts_nil_right]
      simp only [List.headD_cons, List.headD_nil, List.tail_cons, List.tail_nil]
      rw [cmpParts_nil_right]
      simp [cmpZeroRight]
    | cons b bs => rfl

theorem cmpParts_self (as : List Int) : cmpParts as as = 0 := by
  induction as with
  | nil => rfl
  | cons a as ih =>
    rw [cmpParts_unfold]
    simp [ih]

theorem cmpParts_antisymm_aux : ∀ (n : Nat) (as bs : List Int),
    as.length + bs.length = n → cmpParts as bs = -cmpParts bs as := by
  intro n
  induction n using Nat.strong_induction_on with
  | _ n ih =>
    intro as bs hn
    rw [cmpParts_unfold, cmpParts_unfold bs as]
    rcases lt_trichotomy (as.headD 0) (bs.headD 0) with h | h | h
    · have h1 : ¬ (as.headD 0 > bs.headD 0) := by omega
      have h2 : bs.headD 0 > as.headD 0 := h
      rw [if_neg h1, if_pos h, if_pos h2]
    · have h1 : ¬ (as.headD 0 > bs.headD 0) := by omega
      have h2 : ¬ (as.headD 0 < bs.headD 0) := by omega
      have h3 : ¬ (bs.headD 0 > as.headD 0) := by omega
      have h4 : ¬ (bs.headD 0 < as.headD 0) := by omega
      rw [if_neg h1, if_neg h2, if_neg h3, if_neg h4]
      rcases as with _ | ⟨a, as⟩ <;> rcases bs with _ | ⟨b, bs⟩
      · simp [cmpParts, cmpZeroLeft]
      all_goals
        simp only [List.tail_cons, List.tail_nil]
        refine ih _ ?_ _ _ rfl
        simp only [List.length_cons, List.length_nil] at hn ⊢
        omega
    · have h1 : as.headD 0 > bs.headD 0 := h
      have h2 : ¬ (bs.headD 0 > as.headD 0) := by omega
      rw [if_pos h1, if_neg h2, if_pos h]
      norm_num

theorem cmpParts_antisymm (as bs : List Int) : cmpParts as bs = -cmpParts bs as :=
  cmpParts_antisymm_aux (as.length + bs.length) as bs rfl

theorem cmpParts_mem_range_aux : ∀ (n : Nat) (as bs : List Int),
    as.length + bs.length = n →
    cmpParts as bs = -1 ∨ cmpParts as bs = 0 ∨ cmpParts as bs = 1 := by
  intro n
  induction n using Nat.strong_induction_on with
  | _ n ih =>
    intro as bs hn
    rw [cmpParts_unfold]
    by_cases h1 : as.headD 0 > bs.headD 0
    · rw [if_pos h1]
      norm_num
    · by_cases h2 : as.headD 0 < bs.headD 0
      · rw [if_neg h1, if_pos h2]
        norm_num
      · rw [if_neg h1, if_neg h2]
        rcases as with _ | ⟨a, as⟩ <;> rcases bs with _ | ⟨b, bs⟩
        · simp [cmpParts, cmpZeroLeft]
        all_goals
          simp only [List.tail_cons, List.tail_nil]
          refine ih _ ?_ _ _ rfl
          simp only [List.length_cons, List.length_nil] at hn ⊢
          omega

theorem cmpParts_mem_range (as bs : List Int) :
    cmpParts as bs = -1 ∨ cmpParts as bs = 0 ∨ cmpParts as bs = 1 :=
  cmpParts_mem_range_aux (as.length + bs.length) as bs rfl

theorem cmpParts_le_trans_aux : ∀ (n : Nat) (as bs cs : List Int),
    as.length + bs.length + cs.length = n →
    cmpParts as bs ≤ 0 → cmpParts bs cs ≤ 0 → cmpParts as cs ≤ 0 := by
  intro n
  induction n using Nat.strong_induction_on with
  | _ n ih =>
    intro as bs cs hn h1 h2
    rw [cmpParts_unfold] at h1 h2 ⊢
    by_cases hab : as.headD 0 > bs.headD 0
    · rw [if_pos hab] at h1; omega
    · by_cases hbc : bs.headD 0 > cs.headD 0
      · rw [if_pos hbc] at h2; omega
      · by_cases hac : as.headD 0 > cs.headD 0
        · exfalso
          simp only [gt_iff_lt, not_lt] at hab hbc
          omega
        · rw [if_neg hac]
          by_cases hac2 : as.headD 0 < cs.headD 0
          · rw [if_pos hac2]
            norm_num
          · rw [if_neg hac2]
            have hab2 : ¬ as.headD 0 < bs.headD 0 := by
              simp only [gt_iff_lt, not_lt] at hab hbc hac hac2 ⊢
              omega
            have hbc2 : ¬ bs.headD 0 < cs.headD 0 := by
              simp only [gt_iff_lt, not_lt] at hab hbc hac hac2 ⊢
              omega
            rw [if_neg hab, if_neg hab2] at h1
            rw [if_neg hbc, if_neg hbc2] at h2
            rcases as with _ | ⟨a, as⟩ <;> rcases bs with _ | ⟨b, bs⟩ <;>
              rcases cs with _ | ⟨c, cs⟩
            · exact h2
            all_goals
              simp only [List.tail_cons, List.tail_nil] at h1 h2 ⊢
              refine ih _ ?_ _ _ _ rfl h1 h2
              simp only [List.length_cons, List.length_nil] at hn ⊢
              omega

theorem cmpParts_le_trans (as bs cs : List Int)
    (h1 : cmpParts as bs ≤ 0) (h2 : cmpParts bs cs ≤ 0) : cmpParts as cs ≤ 0 :=
  cmpParts_le_trans_aux (as.length + bs.length + cs.length) as bs cs rfl h1 h2

theorem compareVersions_self (a : String) : compareVersions a a = 0 :=
  cmpParts_self _

theorem compareVersions_antisymm (a b : String) :
    compareVersions a b = -compareVersions b a :=
  cmpParts_antisymm _ _

theorem compareVersions_mem_range (a b : String) :
    compareVersions a b = -1 ∨ compareVersions a b = 0 ∨ compareVersions a b = 1 :=
  cmpParts_mem_range _ _

theorem compareVersions_le_trans (a b c : String)
    (h1 : compareVersions a b ≤ 0) (h2 : compareVersions b c ≤ 0) :
    compareVersions a c ≤ 0 :=
  cmpParts_le_trans _ _ _ h1 h2

theorem compareVersions_self_zero_trans (a b c : String)
    (h1 : compareVersions a b = 0) (h2 : compareVersions b c = 0) :
    compareVersions a c = 0 := by
  have hac : compareVersions a c ≤ 0 :=
    compareVersions_le_trans a b c (by omega) (by omega)
  have hba : compareVersions b a = 0 := by
    have := compareVersions_antisymm a b; omega
  have hcb : compareVersions c b = 0 := by
    have := compareVersions_antisymm b c; omega
  have hca : compareVersions c a ≤ 0 :=
    compareVersions_le_trans c b a (by omega) (by omega)
  have := compareVersions_antisymm a c
  omega

theorem compareVersions_neg_trans (a b c : String)
    (h1 : compareVersions a b = -1) (h2 : compareVersions b c = -1) :
    compareVersions a c = -1 := by
  have hle : compareVersions a c ≤ 0 :=
    compareVersions_le_trans a b c (by omega) (by omega)
  rcases compareVersions_mem_range a c with h | h | h
  · exact h
  · exfalso
    have hca : compareVersions c a = 0 := by
      have := compareVersions_antisymm a c; omega
    have hcb : compareVersions c b ≤ 0 :=
      compareVersions_le_trans c a b (by omega) (by omega)
    have := compareVersions_antisymm b c
    omega
  · omega


/-- C3: VersionComparator's compare is a total preorder respecting
numeric-tuple equality: `compare(a,a) == 0`; `compare(a,b) == -compare(b,a)`;
compare is transitive (both for the strict order and for the induced
`compare ≤ 0` preorder); compare always returns one of `-1`, `0`, `1` and in
particular never raises; zero-padded textual variants are equal
(`compare("1.2","1.2.0") == 0`); `compare("2.0.0","1.9.9") == 1`; a
non-numeric component is treated as `0` (`compare("1.abc","1.0") == 0`). -/
theorem c3_compareVersions_total_preorder (a b c : String) :
    compareVersions a a = 0 ∧
    compareVersions a b = -compareVersions b a ∧
    (compareVersions a b = -1 → compareVersions b c = -1 →
      compareVersions a c = -1) ∧
    (compareVersions a b ≤ 0 → compareVersions b c ≤ 0 →
      compareVersions a c ≤ 0) ∧
    (compareVersions a b = -1 ∨ compareVersions a b = 0 ∨
      compareVersions a b = 1) ∧
    compareVersions "1.2" "1.2.0" = 0 ∧
    compareVersions "2.0.0" "1.9.9" = 1 ∧
    compareVersions "1.abc" "1.0" = 0 :=
  ⟨compareVersions_self a,
   compareVersions_antisymm a b,
   compareVersions_neg_trans a b c,
   compareVersions_le_trans a b c,
   compareVersions_mem_range a b,
   by decide,
   by decide,
   by decide⟩

/-- Witness for C3: the transitivity clause applied at concrete versions. -/
theorem c3_compareVersions_total_preorder_witness :
    compareVersions "1.0.0" "3.0" = -1 :=
  (c3_compareVersions_total_preorder "1.0.0" "2.0" "3.0").2.2.1
    (by decide) (by decide)

/-! ## Data model (registry documents, §3; entry shape from index.mjs) -/

/-- One version record of a prompt.  `variants` is the optional
model-variant map of multi-llm-variants.js (`none` models an absent
`variants` property). -/
structure VersionRecord where
  description : String
  prompt : String
  category : String
  tags : List String
  version : String
  variants : Option (List (String × String)) := none
deriving DecidableEq

/-- A prompt entry: the `latest` pointer plus the version map. -/
structure PromptEntry where
  latest : String
  versions : List (String × VersionRecord)
deriving DecidableEq

/-- A registry document: prompt id and entry, in JS-object iteration
order. -/
abbrev Registry := List (String × PromptEntry)

/-! ## MergeEngine (`mergeRegistries`, index.mjs lines 464-533)

The JS function mutates the module-level `registry` object and the
`registryMetadata.schemaVersion` field in place; the model threads both
through a `MergeState`.  The statistics object is `MergeResult`.
-/

/-- The mutable state `mergeRegistries` operates on: the local registry
document and `registryMetadata.schemaVersion`. -/
structure MergeState where
  registry : Registry
  schemaVersion : String
deriving DecidableEq

/-- The `result` object built by `mergeRegistries` (its `conflicts` array
is never written by the source). -/
structure MergeResult where
  newPrompts : Nat
  updatedPrompts : Nat
  conflicts : List String
  warnings : List String
deriving DecidableEq

/-- The version-backfill loops of the `localNewer` and equal-`latest`
branches: copy each remote version the local map does not yet have.  The
membership test runs against the evolving map, exactly as the JS loop
reads `localEntry.versions[version]` after earlier iterations may have
inserted. -/
def fillMissingVersions (localVersions remoteVersions : List (String × VersionRecord)) :
    List (String × VersionRecord) :=
  remoteVersions.foldl
    (fun vs p => if (lookupA p.1 vs).isSome then vs else insertA p.1 p.2 vs)
    localVersions

/-- The `prefer-remote` branch's version loop: copy every remote version,
overwriting. -/
def overwriteVersions (localVersions remoteVersions : List (String × VersionRecord)) :
    List (String × VersionRecord) :=
  remoteVersions.foldl (fun vs p => insertA p.1 p.2 vs) localVersions

/-- The warning text pushed for a version backfilled under `prefer-local`
or `interactive`. -/
def mergeWarning (version promptId : String) : String :=
  "Added newer version " ++ version ++ " to local prompt " ++ promptId

/-- The guard of the `prefer-local` / `interactive` version loop:
`!localEntry.versions[version] && compareVersions(version,
localEntry.latest) === 1` — the remote version is absent from the (current)
local map and strictly newer than the local `latest`. -/
def isNewerMissing (localLatest : String) (vs : List (String × VersionRecord))
    (p : String × VersionRecord) : Bool :=
  !(lookupA p.1 vs).isSome && (compareVersions p.1 localLatest == 1)

/-- One iteration of the `prefer-local` / `interactive` version loop. -/
def backfillStep (promptId localLatest : String)
    (acc : List (String × VersionRecord) × List String)
    (p : String × VersionRecord) :
    List (String × VersionRecord) × List String :=
  if isNewerMissing localLatest acc.1 p then
    (insertA p.1 p.2 acc.1, acc.2 ++ [mergeWarning p.1 promptId])
  else acc

/-- The `prefer-local` / `interactive` branch's version loop: copy only a
remote version that is absent locally and strictly newer than the local
`latest`, pushing a warning for each copy. -/
def backfillNewer (promptId localLatest : String)
    (localVersions remoteVersions : List (String × VersionRecord)) :
    List (String × VersionRecord) × List String :=
  remoteVersions.foldl (backfillStep promptId localLatest) (localVersions, [])

/-- One iteration of the `for (const [promptId, remoteEntry] of
Object.entries(remoteRegistry.prompts))` loop of `mergeRegistries`.
The absent-locally branch ends in `continue`, which skips the
schema-version bookkeeping at the bottom of the loop body. -/
def mergeEntryStep (strategy : String) (remoteSchemaVersion : Option String)
    (acc : MergeState × MergeResult) (entry : String × PromptEntry) :
    MergeState × MergeResult :=
  let st := acc.1
  let res := acc.2
  let promptId := entry.1
  let remoteEntry := entry.2
  match lookupA promptId st.registry with
  | none =>
    ({ st with registry := insertA promptId remoteEntry st.registry },
     { res with newPrompts := res.newPrompts + 1 })
  | some localEntry =>
    let versionComparison := compareVersions localEntry.latest remoteEntry.latest
    let step :=
      if versionComparison > 0 then
        ({ localEntry with
            versions := fillMissingVersions localEntry.versions remoteEntry.versions },
         res)
      else if versionComparison < 0 then
        if strategy = "prefer-remote" then
          (⟨remoteEntry.latest,
            overwriteVersions localEntry.versions remoteEntry.versions⟩,
           { res with updatedPrompts := res.updatedPrompts + 1 })
        else
          let bf := backfillNewer promptId localEntry.latest
            localEntry.versions remoteEntry.versions
          ({ localEntry with versions := bf.1 },
           { res with warnings := res.warnings ++ bf.2 })
      else
        ({ localEntry with
            versions := fillMissingVersions localEntry.versions remoteEntry.versions },
         res)
    let st' : MergeState :=
      { st with registry := insertA promptId step.1 st.registry }
    let st'' : MergeState :=
      match remoteSchemaVersion with
      | some sv =>
        if compareVersions sv st'.schemaVersion > 0 then
          { st' with schemaVersion := sv }
        else st'
      | none => st'
    (st'', step.2)

/-- `mergeRegistries(remoteRegistry, remoteMetadata, options)`:
folds the loop body over the remote document's entries.
`remoteSchemaVersion` is `remoteMetadata.schemaVersion` (`none` for an
absent or empty — falsy — value); `strategy` is `options.mergeStrategy`
(any string other than "prefer-remote" takes the prefer-local /
interactive path, as in the source's string comparison). -/
def mergeRegistries (strategy : String) (st : MergeState) (remotePrompts : Registry)
    (remoteSchemaVersion : Option String) : MergeState × MergeResult :=
  remotePrompts.foldl (mergeEntryStep strategy remoteSchemaVersion)
    (st, ⟨0, 0, [], []⟩)

/-! ### Lemmas about the version-map folds -/

theorem lookupA_isSome_of_mem {α : Type} (v : String) (d : α) (m : List (String × α))
    (h : (v, d) ∈ m) : (lookupA v m).isSome = true := by
  induction m with
  | nil => simp at h
  | cons p rest ih =>
    obtain ⟨k, w⟩ := p
    rcases List.mem_cons.mp h with h' | h'
    · obtain ⟨rfl, rfl⟩ : k = v ∧ w = d := by
        constructor <;> injection h' <;> simp_all
      simp
    · by_cases hk : k = v
      · subst hk; simp
      · simp [hk, ih h']

theorem fillMissingVersions_cons (vs : List (String × VersionRecord))
    (p : String × VersionRecord) (rest : List (String × VersionRecord)) :
    fillMissingVersions vs (p :: rest)
      = fillMissingVersions
          (if (lookupA p.1 vs).isSome then vs else insertA p.1 p.2 vs) rest := rfl

theorem overwriteVersions_cons (vs : List (String × VersionRecord))
    (p : String × VersionRecord) (rest : List (String × VersionRecord)) :
    overwriteVersions vs (p :: rest)
      = overwriteVersions (insertA p.1 p.2 vs) rest := rfl

theorem not_mem_keysA_cons {α : Type} (v : String) (p : String × α)
    (rest : List (String × α)) (hv : v ∉ keysA (p :: rest)) :
    p.1 ≠ v ∧ v ∉ keysA rest := by
  simp only [keysA, List.map_cons, List.mem_cons] at hv
  constructor
  · exact fun h => hv (Or.inl h.symm)
  · intro h
    exact hv (Or.inr (by simpa [keysA] using h))

theorem fillMissingVersions_lookup_not_mem (v : String)
    (rv : List (String × VersionRecord)) :
    ∀ vs, v ∉ keysA rv →
      lookupA v (fillMissingVersions vs rv) = lookupA v vs := by
  induction rv with
  | nil => intro vs _; rfl
  | cons p rest ih =>
    intro vs hv
    obtain ⟨hvp, hvk⟩ := not_mem_keysA_cons v p rest hv
    rw [fillMissingVersions_cons]
    by_cases hp : (lookupA p.1 vs).isSome = true
    · rw [if_pos hp]; exact ih vs hvk
    · rw [if_neg hp, ih _ hvk, lookupA_insertA_ne p.1 v p.2 vs (Ne.symm hvp)]

theorem fillMissingVersions_presence (v : String)
    (rv : List (String × VersionRecord)) :
    ∀ vs, (lookupA v vs).isSome = true →
      (lookupA v (fillMissingVersions vs rv)).isSome = true := by
  induction rv with
  | nil => intro vs h; exact h
  | cons p rest ih =>
    intro vs h
    rw [fillMissingVersions_cons]
    by_cases hp : (lookupA p.1 vs).isSome = true
    · rw [if_pos hp]; exact ih vs h
    · rw [if_neg hp]
      exact ih _ (lookupA_isSome_insertA v p.1 p.2 vs h)

theorem fillMissingVersions_mem_presence (v : String) (d : VersionRecord)
    (rv : List (String × VersionRecord)) :
    ∀ vs, (v, d) ∈ rv →
      (lookupA v (fillMissingVersions vs rv)).isSome = true := by
  induction rv with
  | nil => intro vs h; simp at h
  | cons p rest ih =>
    intro vs h
    rw [fillMissingVersions_cons]
    rcases List.mem_cons.mp h with h' | h'
    · subst h'
      by_cases hp : (lookupA v vs).isSome = true
      · rw [if_pos hp]
        exact fillMissingVersions_presence v rest vs hp
      · rw [if_neg hp]
        refine fillMissingVersions_presence v rest _ ?_
        rw [lookupA_insertA_self]; rfl
    · by_cases hp : (lookupA p.1 vs).isSome = true
      · rw [if_pos hp]; exact ih vs h'
      · rw [if_neg hp]; exact ih _ h'

theorem fillMissingVersions_id (rv : List (String × VersionRecord)) :
    ∀ vs, (∀ q ∈ rv, (lookupA q.1 vs).isSome = true) →
      fillMissingVersions vs rv = vs := by
  induction rv with
  | nil => intro vs _; rfl
  | cons p rest ih =>
    intro vs h
    rw [fillMissingVersions_cons, if_pos (h p (List.mem_cons_self p rest))]
    exact ih vs (fun q hq => h q (List.mem_cons_of_mem p hq))

theorem overwriteVersions_lookup_not_mem (v : String)
    (rv : List (String × VersionRecord)) :
    ∀ vs, v ∉ keysA rv →
      lookupA v (overwriteVersions vs rv) = lookupA v vs := by
  induction rv with
  | nil => intro vs _; rfl
  | cons p rest ih =>
    intro vs hv
    obtain ⟨hvp, hvk⟩ := not_mem_keysA_cons v p rest hv
    rw [overwriteVersions_cons, ih _ hvk,
      lookupA_insertA_ne p.1 v p.2 vs (Ne.symm hvp)]

theorem overwriteVersions_presence (v : String)
    (rv : List (String × VersionRecord)) :
    ∀ vs, (lookupA v vs).isSome = true →
      (lookupA v (overwriteVersions vs rv)).isSome = true := by
  induction rv with
  | nil => intro vs h; exact h
  | cons p rest ih =>
    intro vs h
    rw [overwriteVersions_cons]
    exact ih _ (lookupA_isSome_insertA v p.1 p.2 vs h)

theorem overwriteVersions_mem_presence (v : String) (d : VersionRecord)
    (rv : List (String × VersionRecord)) :
    ∀ vs, (v, d) ∈ rv →
      (lookupA v (overwriteVersions vs rv)).isSome = true := by
  induction rv with
  | nil => intro vs h; simp at h
  | cons p rest ih =>
    intro vs h
    rw [overwriteVersions_cons]
    rcases List.mem_cons.mp h with h' | h'
    · subst h'
      refine overwriteVersions_presence v rest _ ?_
      rw [lookupA_insertA_self]; rfl
    · exact ih _ h'

theorem overwriteVersions_lookup_mem (v : String) (d : VersionRecord)
    (rv : List (String × VersionRecord)) :
    ∀ vs, (keysA rv).Nodup → (v, d) ∈ rv →
      lookupA v (overwriteVersions vs rv) = some d := by
  induction rv with
  | nil => intro vs _ h; simp at h
  | cons p rest ih =>
    intro vs hnd h
    have hnd₁ : p.1 ∉ keysA rest := by
      simp only [keysA, List.map_cons, List.nodup_cons] at hnd
      exact hnd.1
    have hnd₂ : (keysA rest).Nodup := by
      simp only [keysA, List.map_cons, List.nodup_cons] at hnd
      exact hnd.2
    rw [overwriteVersions_cons]
    rcases List.mem_cons.mp h with h' | h'
    · subst h'
      rw [overwriteVersions_lookup_not_mem v rest _ hnd₁]
      exact lookupA_insertA_self v d vs
    · exact ih _ hnd₂ h'

/-! ### Lemmas about the prefer-local backfill loop -/

theorem backfillStep_eq (promptId latest : String)
    (acc : List (String × VersionRecord) × List String)
    (p : String × VersionRecord) :
    backfillStep promptId latest acc p =
      if isNewerMissing latest acc.1 p then
        (insertA p.1 p.2 acc.1, acc.2 ++ [mergeWarning p.1 promptId])
      else acc := rfl

theorem isNewerMissing_insert_ne (latest : String) (vs : List (String × VersionRecord))
    (k : String) (d : VersionRecord) (q : String × VersionRecord) (h : q.1 ≠ k) :
    isNewerMissing latest (insertA k d vs) q = isNewerMissing latest vs q := by
  unfold isNewerMissing
  rw [lookupA_insertA_ne k q.1 d vs h]

theorem backfill_lookup_not_mem (promptId latest : String)
    (rv : List (String × VersionRecord)) :
    ∀ (acc : List (String × VersionRecord) × List String) (v : String),
      v ∉ keysA rv →
      lookupA v (rv.foldl (backfillStep promptId latest) acc).1 = lookupA v acc.1 := by
  induction rv with
  | nil => intro acc v _; rfl
  | cons p rest ih =>
    intro acc v hv
    obtain ⟨hvp, hvk⟩ := not_mem_keysA_cons v p rest hv
    rw [List.foldl_cons]
    rw [backfillStep_eq]
    by_cases hc : isNewerMissing latest acc.1 p = true
    · rw [if_pos hc, ih _ v hvk]
      exact lookupA_insertA_ne p.1 v p.2 acc.1 (Ne.symm hvp)
    · rw [if_neg hc, ih _ v hvk]

theorem backfill_presence (promptId latest : String)
    (rv : List (String × VersionRecord)) :
    ∀ (acc : List (String × VersionRecord) × List String) (v : String),
      (lookupA v acc.1).isSome = true →
      (lookupA v (rv.foldl (backfillStep promptId latest) acc).1).isSome = true := by
  induction rv with
  | nil => intro acc v h; exact h
  | cons p rest ih =>
    intro acc v h
    rw [List.foldl_cons]
    rw [backfillStep_eq]
    by_cases hc : isNewerMissing latest acc.1 p = true
    · rw [if_pos hc]
      exact ih _ v (lookupA_isSome_insertA v p.1 p.2 acc.1 h)
    · rw [if_neg hc]
      exact ih _ v h

theorem backfill_newer_presence (promptId latest : String)
    (rv : List (String × VersionRecord)) :
    ∀ (acc : List (String × VersionRecord) × List String) (v : String)
      (d : VersionRecord), (v, d) ∈ rv → compareVersions v latest = 1 →
      (lookupA v (rv.foldl (backfillStep promptId latest) acc).1).isSome = true := by
  induction rv with
  | nil => intro acc v d h _; simp at h
  | cons p rest ih =>
    intro acc v d h hcmp
    rw [List.foldl_cons]
    rcases List.mem_cons.mp h with h' | h'
    · subst h'
      rw [backfillStep_eq]
      by_cases hc : isNewerMissing latest acc.1 (v, d) = true
      · rw [if_pos hc]
        refine backfill_presence promptId latest rest _ v ?_
        rw [lookupA_insertA_self]; rfl
      · rw [if_neg hc]
        refine backfill_presence promptId latest rest _ v ?_
        unfold isNewerMissing at hc
        simp only [Bool.and_eq_true, Bool.not_eq_true', beq_iff_eq] at hc
        by_cases hp : (lookupA v acc.1).isSome = true
        · exact hp
        · exfalso
          apply hc
          constructor
          · simp only [Bool.not_eq_true] at hp
            exact hp
          · simpa using hcmp
    · unfold backfillStep
      by_cases hc : isNewerMissing latest acc.1 p = true
      · rw [if_pos hc]
        exact ih _ v d h' hcmp
      · rw [if_neg hc]
        exact ih _ v d h' hcmp

theorem backfill_lookup_mem (promptId latest : String)
    (rv : List (String × VersionRecord)) :
    ∀ (acc : List (String × VersionRecord) × List String) (v : String)
      (d : VersionRecord), (keysA rv).Nodup → (v, d) ∈ rv →
      isNewerMissing latest acc.1 (v, d) = true →
      lookupA v (rv.foldl (backfillStep promptId latest) acc).1 = some d := by
  induction rv with
  | nil => intro acc v d _ h _; simp at h
  | cons p rest ih =>
    intro acc v d hnd h hg
    have hnd₁ : p.1 ∉ keysA rest := by
      simp only [keysA, List.map_cons, List.nodup_cons] at hnd
      exact hnd.1
    have hnd₂ : (keysA rest).Nodup := by
      simp only [keysA, List.map_cons, List.nodup_cons] at hnd
      exact hnd.2
    rw [List.foldl_cons]
    rcases List.mem_cons.mp h with h' | h'
    · subst h'
      rw [backfillStep_eq]
      rw [if_pos hg]
      rw [backfill_lookup_not_mem promptId latest rest _ v hnd₁]
      exact lookupA_insertA_self v d acc.1
    · have hpv : p.1 ≠ v := by
        intro he
        exact hnd₁ (he ▸ (List.mem_map_of_mem Prod.fst h'))
      rw [backfillStep_eq]
      by_cases hc : isNewerMissing latest acc.1 p = true
      · rw [if_pos hc]
        refine ih _ v d hnd₂ h' ?_
        rw [isNewerMissing_insert_ne latest acc.1 p.1 p.2 (v, d) hpv.symm]
        exact hg
      · rw [if_neg hc]
        exact ih _ v d hnd₂ h' hg

theorem backfill_lookup_not_guard (promptId latest : String)
    (rv : List (String × VersionRecord)) :
    ∀ (acc : List (String × VersionRecord) × List String) (v : String)
      (d : VersionRecord), (keysA rv).Nodup → (v, d) ∈ rv →
      isNewerMissing latest acc.1 (v, d) = false →
      lookupA v (rv.foldl (backfillStep promptId latest) acc).1 = lookupA v acc.1 := by
  induction rv with
  | nil => intro acc v d _ h _; simp at h
  | cons p rest ih =>
    intro acc v d hnd h hg
    have hnd₁ : p.1 ∉ keysA rest := by
      simp only [keysA, List.map_cons, List.nodup_cons] at hnd
      exact hnd.1
    have hnd₂ : (keysA rest).Nodup := by
      simp only [keysA, List.map_cons, List.nodup_cons] at hnd
      exact hnd.2
    rw [List.foldl_cons]
    rcases List.mem_cons.mp h with h' | h'
    · subst h'
      rw [backfillStep_eq]
      rw [if_neg (by simp [hg])]
      exact backfill_lookup_not_mem promptId latest rest acc v hnd₁
    · have hpv : p.1 ≠ v := by
        intro he
        exact hnd₁ (he ▸ (List.mem_map_of_mem Prod.fst h'))
      rw [backfillStep_eq]
      by_cases hc : isNewerMissing latest acc.1 p = true
      · rw [if_pos hc]
        rw [ih _ v d hnd₂ h'
          (by rw [isNewerMissing_insert_ne latest acc.1 p.1 p.2 (v, d) hpv.symm]; exact hg)]
        exact lookupA_insertA_ne p.1 v p.2 acc.1 hpv.symm
      · rw [if_neg hc]
        exact ih _ v d hnd₂ h' hg

theorem backfill_warnings (promptId latest : String)
    (rv : List (String × VersionRecord)) :
    ∀ (acc : List (String × VersionRecord) × List String), (keysA rv).Nodup →
      (rv.foldl (backfillStep promptId latest) acc).2
        = acc.2 ++ (rv.filter (isNewerMissing latest acc.1)).map
            (fun q => mergeWarning q.1 promptId) := by
  induction rv with
  | nil => intro acc _; simp
  | cons p rest ih =>
    intro acc hnd
    have hnd₁ : p.1 ∉ keysA rest := by
      simp only [keysA, List.map_cons, List.nodup_cons] at hnd
      exact hnd.1
    have hnd₂ : (keysA rest).Nodup := by
      simp only [keysA, List.map_cons, List.nodup_cons] at hnd
      exact hnd.2
    rw [List.foldl_cons]
    rw [backfillStep_eq]
    by_cases hc : isNewerMissing latest acc.1 p = true
    · rw [if_pos hc, ih _ hnd₂]
      have hcong : rest.filter (isNewerMissing latest (insertA p.1 p.2 acc.1))
          = rest.filter (isNewerMissing latest acc.1) := by
        apply List.filter_congr
        intro q hq
        have hqv : q.1 ≠ p.1 := by
          intro he
          exact hnd₁ (he ▸ (List.mem_map_of_mem Prod.fst hq))
        exact isNewerMissing_insert_ne latest acc.1 p.1 p.2 q hqv
      rw [hcong, List.filter_cons_of_pos hc, List.map_cons]
      simp
    · rw [if_neg hc, ih _ hnd₂,
        List.filter_cons_of_neg (by simpa using hc)]

theorem backfill_id (promptId latest : String)
    (rv : List (String × VersionRecord)) :
    ∀ (vs : List (String × VersionRecord)) (ws : List String),
      (∀ q ∈ rv, isNewerMissing latest vs q = false) →
      rv.foldl (backfillStep promptId latest) (vs, ws) = (vs, ws) := by
  induction rv with
  | nil => intro vs ws _; rfl
  | cons p rest ih =>
    intro vs ws h
    rw [List.foldl_cons]
    rw [backfillStep_eq]
    rw [if_neg (by simp [h p (List.mem_cons_self p rest)])]
    exact ih vs ws (fun q hq => h q (List.mem_cons_of_mem p hq))

/-! ### Characterisation of one merge-loop iteration -/

/-- The entry stored for `promptId` after one loop iteration, as a function
of the entry the local registry currently holds (`none` when the id is
absent locally). -/
def entryResultOf (strategy promptId : String) (remoteEntry : PromptEntry) :
    Option PromptEntry → PromptEntry
  | none => remoteEntry
  | some localEntry =>
    let versionComparison := compareVersions localEntry.latest remoteEntry.latest
    if versionComparison > 0 then
      ⟨localEntry.latest,
        fillMissingVersions localEntry.versions remoteEntry.versions⟩
    else if versionComparison < 0 then
      if strategy = "prefer-remote" then
        ⟨remoteEntry.latest,
          overwriteVersions localEntry.versions remoteEntry.versions⟩
      else
        ⟨localEntry.latest,
          (backfillNewer promptId localEntry.latest
            localEntry.versions remoteEntry.versions).1⟩
    else
      ⟨localEntry.latest,
        fillMissingVersions localEntry.versions remoteEntry.versions⟩

theorem mergeEntryStep_registry (strategy : String) (rsv : Option String)
    (acc : MergeState × MergeResult) (p : String × PromptEntry) :
    (mergeEntryStep strategy rsv acc p).1.registry
      = insertA p.1 (entryResultOf strategy p.1 p.2 (lookupA p.1 acc.1.registry))
          acc.1.registry := by
  unfold mergeEntryStep entryResultOf
  cases hl : lookupA p.1 acc.1.registry with
  | none => simp [hl]
  | some le =>
    simp only [hl]
    by_cases h1 : compareVersions le.latest p.2.latest > 0
    · rw [if_pos h1, if_pos h1]
      cases rsv with
      | none => rfl
      | some sv =>
        by_cases h2 : compareVersions sv acc.1.schemaVersion > 0 <;>
          simp [h2]
    · rw [if_neg h1, if_neg h1]
      by_cases h2 : compareVersions le.latest p.2.latest < 0
      · rw [if_pos h2, if_pos h2]
        by_cases h3 : strategy = "prefer-remote"
        · rw [if_pos h3, if_pos h3]
          cases rsv with
          | none => rfl
          | some sv =>
            by_cases h4 : compareVersions sv acc.1.schemaVersion > 0 <;>
              simp [h4]
        · rw [if_neg h3, if_neg h3]
          cases rsv with
          | none => rfl
          | some sv =>
            by_cases h4 : compareVersions sv acc.1.schemaVersion > 0 <;>
              simp [h4]
      · rw [if_neg h2, if_neg h2]
        cases rsv with
        | none => rfl
        | some sv =>
          by_cases h4 : compareVersions sv acc.1.schemaVersion > 0 <;>
            simp [h4]

theorem mergeEntryStep_newPrompts (strategy : String) (rsv : Option String)
    (acc : MergeState × MergeResult) (p : String × PromptEntry) :
    (mergeEntryStep strategy rsv acc p).2.newPrompts
      = acc.2.newPrompts +
        (if (lookupA p.1 acc.1.registry).isSome then 0 else 1) := by
  unfold mergeEntryStep
  cases hl : lookupA p.1 acc.1.registry with
  | none => simp [hl]
  | some le =>
    simp only [hl, Option.isSome_some, if_true]
    by_cases h1 : compareVersions le.latest p.2.latest > 0
    · simp [h1]
    · by_cases h2 : compareVersions le.latest p.2.latest < 0
      · by_cases h3 : strategy = "prefer-remote" <;> simp [h1, h2, h3]
      · simp [h1, h2]

theorem mergeEntryStep_warnings (strategy : String) (rsv : Option String)
    (acc : MergeState × MergeResult) (p : String × PromptEntry) :
    ∃ w, (mergeEntryStep strategy rsv acc p).2.warnings = acc.2.warnings ++ w := by
  unfold mergeEntryStep
  cases hl : lookupA p.1 acc.1.registry with
  | none => exact ⟨[], by simp [hl]⟩
  | some le =>
    simp only [hl]
    by_cases h1 : compareVersions le.latest p.2.latest > 0
    · exact ⟨[], by simp [h1]⟩
    · by_cases h2 : compareVersions le.latest p.2.latest < 0
      · by_cases h3 : strategy = "prefer-remote"
        · exact ⟨[], by simp [h1, h2, h3]⟩
        · refine ⟨(backfillNewer p.1 le.latest le.versions p.2.versions).2, ?_⟩
          simp [h1, h2, h3]
      · exact ⟨[], by simp [h1, h2]⟩

theorem mergeEntryStep_schemaVersion (strategy : String) (sv : String)
    (acc : MergeState × MergeResult) (p : String × PromptEntry) :
    (mergeEntryStep strategy (some sv) acc p).1.schemaVersion
      = if (lookupA p.1 acc.1.registry).isSome then
          (if compareVersions sv acc.1.schemaVersion > 0 then sv
           else acc.1.schemaVersion)
        else acc.1.schemaVersion := by
  unfold mergeEntryStep
  cases hl : lookupA p.1 acc.1.registry with
  | none => simp [hl]
  | some le =>
    simp only [hl, Option.isSome_some, if_true]
    by_cases h1 : compareVersions le.latest p.2.latest > 0
    · by_cases h4 : compareVersions sv acc.1.schemaVersion > 0 <;>
        simp [h1, h4]
    · by_cases h2 : compareVersions le.latest p.2.latest < 0
      · by_cases h3 : strategy = "prefer-remote" <;>
          by_cases h4 : compareVersions sv acc.1.schemaVersion > 0 <;>
            simp [h1, h2, h3, h4]
      · by_cases h4 : compareVersions sv acc.1.schemaVersion > 0 <;>
          simp [h1, h2, h4]

theorem mergeEntryStep_schemaVersion_none (strategy : String)
    (acc : MergeState × MergeResult) (p : String × PromptEntry) :
    (mergeEntryStep strategy none acc p).1.schemaVersion
      = acc.1.schemaVersion := by
  unfold mergeEntryStep
  cases hl : lookupA p.1 acc.1.registry with
  | none => simp [hl]
  | some le => simp [hl]

/-! ### Fold-level lemmas for `mergeRegistries` -/

theorem mergeEntryStep_presence (strategy : String) (rsv : Option String)
    (acc : MergeState × MergeResult) (p : String × PromptEntry) (id : String)
    (h : (lookupA id acc.1.registry).isSome = true) :
    (lookupA id (mergeEntryStep strategy rsv acc p).1.registry).isSome = true := by
  rw [mergeEntryStep_registry]
  exact lookupA_isSome_insertA id p.1 _ _ h

theorem mergeEntryStep_nodup (strategy : String) (rsv : Option String)
    (acc : MergeState × MergeResult) (p : String × PromptEntry)
    (h : (keysA acc.1.registry).Nodup) :
    (keysA (mergeEntryStep strategy rsv acc p).1.registry).Nodup := by
  rw [mergeEntryStep_registry]
  exact keysA_nodup_insertA p.1 _ _ h

theorem mergeEntryStep_lookup_ne (strategy : String) (rsv : Option String)
    (acc : MergeState × MergeResult) (p : String × PromptEntry) (id : String)
    (h : p.1 ≠ id) :
    lookupA id (mergeEntryStep strategy rsv acc p).1.registry
      = lookupA id acc.1.registry := by
  rw [mergeEntryStep_registry]
  exact lookupA_insertA_ne p.1 id _ _ (Ne.symm h)

theorem mergeFold_lookup_ne (strategy : String) (rsv : Option String) (id : String) :
    ∀ (L : Registry) (acc : MergeState × MergeResult),
      (∀ p ∈ L, p.1 ≠ id) →
      lookupA id (L.foldl (mergeEntryStep strategy rsv) acc).1.registry
        = lookupA id acc.1.registry := by
  intro L
  induction L with
  | nil => intro acc _; rfl
  | cons q rest ih =>
    intro acc h
    rw [List.foldl_cons, ih _ (fun p hp => h p (List.mem_cons_of_mem q hp)),
      mergeEntryStep_lookup_ne strategy rsv acc q id (h q (List.mem_cons_self q rest))]

theorem mergeFold_presence (strategy : String) (rsv : Option String) (id : String) :
    ∀ (L : Registry) (acc : MergeState × MergeResult),
      (lookupA id acc.1.registry).isSome = true →
      (lookupA id (L.foldl (mergeEntryStep strategy rsv) acc).1.registry).isSome
        = true := by
  intro L
  induction L with
  | nil => intro acc h; exact h
  | cons q rest ih =>
    intro acc h
    rw [List.foldl_cons]
    exact ih _ (mergeEntryStep_presence strategy rsv acc q id h)

theorem mergeFold_nodup (strategy : String) (rsv : Option String) :
    ∀ (L : Registry) (acc : MergeState × MergeResult),
      (keysA acc.1.registry).Nodup →
      (keysA (L.foldl (mergeEntryStep strategy rsv) acc).1.registry).Nodup := by
  intro L
  induction L with
  | nil => intro acc h; exact h
  | cons q rest ih =>
    intro acc h
    rw [List.foldl_cons]
    exact ih _ (mergeEntryStep_nodup strategy rsv acc q h)

theorem mergeFold_warnings (strategy : String) (rsv : Option String) :
    ∀ (L : Registry) (acc : MergeState × MergeResult),
      ∃ w, (L.foldl (mergeEntryStep strategy rsv) acc).2.warnings
        = acc.2.warnings ++ w := by
  intro L
  induction L with
  | nil => intro acc; exact ⟨[], by simp⟩
  | cons q rest ih =>
    intro acc
    rw [List.foldl_cons]
    obtain ⟨w₁, hw₁⟩ := mergeEntryStep_warnings strategy rsv acc q
    obtain ⟨w₂, hw₂⟩ := ih (mergeEntryStep strategy rsv acc q)
    exact ⟨w₁ ++ w₂, by rw [hw₂, hw₁, List.append_assoc]⟩

/-- The guard of the `updatedPrompts` increment: the remote id is present
locally and the remote `latest` is strictly newer. -/
def remoteNewerPred (reg : Registry) (q : String × PromptEntry) : Bool :=
  match lookupA q.1 reg with
  | some le => decide (compareVersions le.latest q.2.latest < 0)
  | none => false

theorem mergeEntryStep_updatedPrompts (strategy : String) (rsv : Option String)
    (acc : MergeState × MergeResult) (p : String × PromptEntry) :
    (mergeEntryStep strategy rsv acc p).2.updatedPrompts
      = acc.2.updatedPrompts +
        (if strategy = "prefer-remote" ∧ remoteNewerPred acc.1.registry p = true
         then 1 else 0) := by
  unfold mergeEntryStep remoteNewerPred
  cases hl : lookupA p.1 acc.1.registry with
  | none => simp [hl]
  | some le =>
    simp only [hl]
    by_cases h1 : compareVersions le.latest p.2.latest > 0
    · have : ¬ (compareVersions le.latest p.2.latest < 0) := by omega
      simp [h1, this]
    · by_cases h2 : compareVersions le.latest p.2.latest < 0
      · by_cases h3 : strategy = "prefer-remote" <;>
          simp [h1, h2, h3]
      · simp [h1, h2]

theorem mergeFold_updatedPrompts (strategy : String) (rsv : Option String) :
    ∀ (L : Registry) (acc : MergeState × MergeResult),
      (keysA L).Nodup →
      (L.foldl (mergeEntryStep strategy rsv) acc).2.updatedPrompts
        = acc.2.updatedPrompts +
          (L.filter (fun q =>
            decide (strategy = "prefer-remote") &&
              remoteNewerPred acc.1.registry q)).length := by
  intro L
  induction L with
  | nil => intro acc _; simp
  | cons q rest ih =>
    intro acc hnd
    have hnd₁ : q.1 ∉ keysA rest := by
      simp only [keysA, List.map_cons, List.nodup_cons] at hnd
      exact hnd.1
    have hnd₂ : (keysA rest).Nodup := by
      simp only [keysA, List.map_cons, List.nodup_cons] at hnd
      exact hnd.2
    rw [List.foldl_cons, ih _ hnd₂, mergeEntryStep_updatedPrompts]
    have hcong : rest.filter (fun r =>
          decide (strategy = "prefer-remote") &&
            remoteNewerPred (mergeEntryStep strategy rsv acc q).1.registry r)
        = rest.filter (fun r =>
            decide (strategy = "prefer-remote") && remoteNewerPred acc.1.registry r) := by
      apply List.filter_congr
      intro r hr
      have hrq : r.1 ≠ q.1 := by
        intro he
        exact hnd₁ (he ▸ (List.mem_map_of_mem Prod.fst hr))
      unfold remoteNewerPred
      rw [mergeEntryStep_lookup_ne strategy rsv acc q r.1 (Ne.symm hrq)]
    rw [hcong]
    by_cases hq : (decide (strategy = "prefer-remote") &&
        remoteNewerPred acc.1.registry q) = true
    · have hq' : strategy = "prefer-remote" ∧ remoteNewerPred acc.1.registry q = true := by
        simpa using hq
      rw [if_pos hq']
      simp only [List.filter_cons, hq, if_true, List.length_cons]
      omega
    · have hq' : ¬ (strategy = "prefer-remote" ∧ remoteNewerPred acc.1.registry q = true) := by
        intro hcon
        exact hq (by simp [hcon.1, hcon.2])
      have hqf : (decide (strategy = "prefer-remote") &&
          remoteNewerPred acc.1.registry q) = false := by
        simpa using hq
      rw [if_neg hq']
      simp only [List.filter_cons, hqf, Bool.false_eq_true, if_false]
      omega

theorem mergeFold_newPrompts_const (strategy : String) (rsv : Option String) :
    ∀ (L : Registry) (acc : MergeState × MergeResult),
      (∀ p ∈ L, (lookupA p.1 acc.1.registry).isSome = true) →
      (L.foldl (mergeEntryStep strategy rsv) acc).2.newPrompts
        = acc.2.newPrompts := by
  intro L
  induction L with
  | nil => intro acc _; rfl
  | cons q rest ih =>
    intro acc h
    rw [List.foldl_cons]
    have hpres : ∀ p ∈ rest,
        (lookupA p.1 (mergeEntryStep strategy rsv acc q).1.registry).isSome = true :=
      fun p hp =>
        mergeEntryStep_presence strategy rsv acc q p.1 (h p (List.mem_cons_of_mem q hp))
    rw [ih _ hpres, mergeEntryStep_newPrompts,
      if_pos (h q (List.mem_cons_self q rest))]
    omega

theorem nodup_split_mid {α : Type} (L1 L2 : List (String × α)) (id : String) (x : String × α)
    (hx : x.1 = id)
    (hnd : (keysA (L1 ++ x :: L2)).Nodup) :
    (∀ p ∈ L1, p.1 ≠ id) ∧ (∀ p ∈ L2, p.1 ≠ id) := by
  have hkeys : keysA (L1 ++ x :: L2) = keysA L1 ++ x.1 :: keysA L2 := by
    simp [keysA]
  rw [hkeys, hx] at hnd
  rw [List.nodup_append] at hnd
  obtain ⟨h1, h2, hdisj⟩ := hnd
  rw [List.nodup_cons] at h2
  constructor
  · intro p hp he
    exact hdisj (he ▸ List.mem_map_of_mem Prod.fst hp) (List.mem_cons_self _ _)
  · intro p hp he
    exact h2.1 (he ▸ List.mem_map_of_mem Prod.fst hp)

theorem entryResultOf_some (strategy promptId : String)
    (re le : PromptEntry) :
    entryResultOf strategy promptId re (some le)
      = if compareVersions le.latest re.latest > 0 then
          ⟨le.latest, fillMissingVersions le.versions re.versions⟩
        else if compareVersions le.latest re.latest < 0 then
          if strategy = "prefer-remote" then
            ⟨re.latest, overwriteVersions le.versions re.versions⟩
          else
            ⟨le.latest, (backfillNewer promptId le.latest le.versions re.versions).1⟩
        else ⟨le.latest, fillMissingVersions le.versions re.versions⟩ := rfl

theorem mergeEntryStep_warnings_backfill (strategy : String) (rsv : Option String)
    (acc : MergeState × MergeResult) (p : String × PromptEntry) (le : PromptEntry)
    (hl : lookupA p.1 acc.1.registry = some le)
    (hlt : compareVersions le.latest p.2.latest < 0)
    (hnp : strategy ≠ "prefer-remote") :
    (mergeEntryStep strategy rsv acc p).2.warnings
      = acc.2.warnings ++ (backfillNewer p.1 le.latest le.versions p.2.versions).2 := by
  unfold mergeEntryStep
  simp only [hl]
  have hgt : ¬ (compareVersions le.latest p.2.latest > 0) := by omega
  simp only [if_neg hgt, if_pos hlt, if_neg hnp]

/-- After a full merge, the entry stored for a remote id is the result of
its (single) loop iteration, computed against the original local state. -/
theorem merge_final_lookup (strategy : String) (rsv : Option String)
    (st : MergeState) (remote : Registry) (id : String) (re : PromptEntry)
    (hndR : (keysA remote).Nodup) (hmem : (id, re) ∈ remote) :
    lookupA id (mergeRegistries strategy st remote rsv).1.registry
      = some (entryResultOf strategy id re (lookupA id st.registry)) := by
  obtain ⟨L1, L2, hsplit⟩ := List.append_of_mem hmem
  subst hsplit
  obtain ⟨hid1, hid2⟩ := nodup_split_mid L1 L2 id (id, re) rfl hndR
  unfold mergeRegistries
  rw [List.foldl_append, List.foldl_cons]
  rw [mergeFold_lookup_ne strategy rsv id L2 _ hid2]
  rw [mergeEntryStep_registry]
  simp only
  rw [mergeFold_lookup_ne strategy rsv id L1 _ hid1]
  exact lookupA_insertA_self id _ _

/-- C1: for a prompt id present in both documents whose remote `latest` is
strictly newer than the local `latest` (by VersionComparator):
under "prefer-remote" the merge points the local entry's `latest` at the
remote `latest`, copies every remote version record into the local
versions map (leaving versions outside the remote map untouched), and the
merge's `updatedPrompts` counts exactly the ids handled this way; under
"prefer-local" or "interactive" the merge keeps the local `latest`,
copies exactly the remote versions that are absent locally and strictly
newer than the local `latest` (`isNewerMissing`), appends one warning per
copied version naming the id and the version, and leaves every other
remote version unmerged. -/
theorem c1_merge_remote_newer
    (st : MergeState) (remote : Registry) (rsv : Option String)
    (promptId : String) (localEntry remoteEntry : PromptEntry)
    (hndR : (keysA remote).Nodup)
    (hndV : (keysA remoteEntry.versions).Nodup)
    (hmem : (promptId, remoteEntry) ∈ remote)
    (hloc : lookupA promptId st.registry = some localEntry)
    (hnewer : compareVersions remoteEntry.latest localEntry.latest = 1) :
    (∃ e : PromptEntry,
        lookupA promptId
            (mergeRegistries "prefer-remote" st remote rsv).1.registry = some e ∧
        e.latest = remoteEntry.latest ∧
        (∀ v d, (v, d) ∈ remoteEntry.versions → lookupA v e.versions = some d) ∧
        (∀ v, v ∉ keysA remoteEntry.versions →
          lookupA v e.versions = lookupA v localEntry.versions)) ∧
    (mergeRegistries "prefer-remote" st remote rsv).2.updatedPrompts
      = (remote.filter (remoteNewerPred st.registry)).length ∧
    (∀ strategy, strategy = "prefer-local" ∨ strategy = "interactive" →
      ∃ e : PromptEntry,
        lookupA promptId
            (mergeRegistries strategy st remote rsv).1.registry = some e ∧
        e.latest = localEntry.latest ∧
        (∀ v d, (v, d) ∈ remoteEntry.versions →
          isNewerMissing localEntry.latest localEntry.versions (v, d) = true →
          lookupA v e.versions = some d) ∧
        (∀ v d, (v, d) ∈ remoteEntry.versions →
          isNewerMissing localEntry.latest localEntry.versions (v, d) = false →
          lookupA v e.versions = lookupA v localEntry.versions) ∧
        (∀ v, v ∉ keysA remoteEntry.versions →
          lookupA v e.versions = lookupA v localEntry.versions) ∧
        ∃ pre post,
          (mergeRegistries strategy st remote rsv).2.warnings =
            pre ++ ((remoteEntry.versions.filter
                (isNewerMissing localEntry.latest localEntry.versions)).map
                (fun q => mergeWarning q.1 promptId)) ++ post) := by
  have hcmp : compareVersions localEntry.latest remoteEntry.latest = -1 := by
    have := compareVersions_antisymm localEntry.latest remoteEntry.latest
    omega
  have hgt : ¬ (compareVersions localEntry.latest remoteEntry.latest > 0) := by omega
  have hlt : compareVersions localEntry.latest remoteEntry.latest < 0 := by omega
  refine ⟨?_, ?_, ?_⟩
  · -- prefer-remote entry shape
    refine ⟨entryResultOf "prefer-remote" promptId remoteEntry (some localEntry),
      ?_, ?_, ?_, ?_⟩
    · rw [merge_final_lookup "prefer-remote" rsv st remote promptId remoteEntry
        hndR hmem, hloc]
    · rw [entryResultOf_some, if_neg hgt, if_pos hlt, if_pos rfl]
    · intro v d hv
      rw [entryResultOf_some, if_neg hgt, if_pos hlt, if_pos rfl]
      exact overwriteVersions_lookup_mem v d remoteEntry.versions
        localEntry.versions hndV hv
    · intro v hv
      rw [entryResultOf_some, if_neg hgt, if_pos hlt, if_pos rfl]
      exact overwriteVersions_lookup_not_mem v remoteEntry.versions
        localEntry.versions hv
  · -- updatedPrompts counts the remote-newer ids
    unfold mergeRegistries
    rw [mergeFold_updatedPrompts "prefer-remote" rsv remote _ hndR]
    simp
  · -- prefer-local / interactive entry shape
    intro strategy hs
    have hnp : strategy ≠ "prefer-remote" := by
      rcases hs with h | h <;> subst h <;> decide
    refine ⟨entryResultOf strategy promptId remoteEntry (some localEntry),
      ?_, ?_, ?_, ?_, ?_, ?_⟩
    · rw [merge_final_lookup strategy rsv st remote promptId remoteEntry
        hndR hmem, hloc]
    · rw [entryResultOf_some, if_neg hgt, if_pos hlt, if_neg hnp]
    · intro v d hv hg
      rw [entryResultOf_some, if_neg hgt, if_pos hlt, if_neg hnp]
      exact backfill_lookup_mem promptId localEntry.latest remoteEntry.versions
        (localEntry.versions, []) v d hndV hv hg
    · intro v d hv hg
      rw [entryResultOf_some, if_neg hgt, if_pos hlt, if_neg hnp]
      exact backfill_lookup_not_guard promptId localEntry.latest
        remoteEntry.versions (localEntry.versions, []) v d hndV hv hg
    · intro v hv
      rw [entryResultOf_some, if_neg hgt, if_pos hlt, if_neg hnp]
      exact backfill_lookup_not_mem promptId localEntry.latest
        remoteEntry.versions (localEntry.versions, []) v hv
    · -- the warnings appended for this id
      obtain ⟨L1, L2, hsplit⟩ := List.append_of_mem hmem
      subst hsplit
      obtain ⟨hid1, hid2⟩ :=
        nodup_split_mid L1 L2 promptId (promptId, remoteEntry) rfl hndR
      unfold mergeRegistries
      rw [List.foldl_append, List.foldl_cons]
      obtain ⟨w2, hw2⟩ := mergeFold_warnings strategy rsv L2
        (mergeEntryStep strategy rsv
          (List.foldl (mergeEntryStep strategy rsv) (st, ⟨0, 0, [], []⟩) L1)
          (promptId, remoteEntry))
      rw [hw2]
      obtain ⟨w1, hw1⟩ := mergeFold_warnings strategy rsv L1 (st, ⟨0, 0, [], []⟩)
      have hmid : lookupA promptId
          (List.foldl (mergeEntryStep strategy rsv) (st, ⟨0, 0, [], []⟩) L1).1.registry
          = some localEntry := by
        rw [mergeFold_lookup_ne strategy rsv promptId L1 _ hid1]
        exact hloc
      -- compute the warnings pushed by this id's iteration
      rw [mergeEntryStep_warnings_backfill strategy rsv _ (promptId, remoteEntry)
        localEntry hmid hlt hnp]
      refine ⟨(List.foldl (mergeEntryStep strategy rsv) (st, ⟨0, 0, [], []⟩) L1).2.warnings,
        w2, ?_⟩
      unfold backfillNewer
      rw [backfill_warnings promptId localEntry.latest remoteEntry.versions
        (localEntry.versions, []) hndV]
      simp

/-! ### Idempotence of the merge -/

theorem entryResultOf_absorb (strategy promptId : String) (re : PromptEntry)
    (opt : Option PromptEntry) :
    entryResultOf strategy promptId re
        (some (entryResultOf strategy promptId re opt))
      = entryResultOf strategy promptId re opt := by
  cases opt with
  | none =>
    show entryResultOf strategy promptId re (some re) = re
    rw [entryResultOf_some]
    have h0 : compareVersions re.latest re.latest = 0 := compareVersions_self _
    rw [if_neg (by omega), if_neg (by omega)]
    have hfill : fillMissingVersions re.versions re.versions = re.versions :=
      fillMissingVersions_id _ _
        (fun q hq => lookupA_isSome_of_mem q.1 q.2 _ (by simpa using hq))
    rw [hfill]
  | some le =>
    by_cases h1 : compareVersions le.latest re.latest > 0
    · have hE : entryResultOf strategy promptId re (some le)
          = ⟨le.latest, fillMissingVersions le.versions re.versions⟩ := by
        rw [entryResultOf_some, if_pos h1]
      rw [hE, entryResultOf_some]
      dsimp only
      rw [if_pos h1]
      have hfill : fillMissingVersions
          (fillMissingVersions le.versions re.versions) re.versions
          = fillMissingVersions le.versions re.versions :=
        fillMissingVersions_id _ _
          (fun q hq => fillMissingVersions_mem_presence q.1 q.2 _ le.versions
            (by simpa using hq))
      rw [hfill]
    · by_cases h2 : compareVersions le.latest re.latest < 0
      · by_cases h3 : strategy = "prefer-remote"
        · have hE : entryResultOf strategy promptId re (some le)
              = ⟨re.latest, overwriteVersions le.versions re.versions⟩ := by
            rw [entryResultOf_some, if_neg h1, if_pos h2, if_pos h3]
          rw [hE, entryResultOf_some]
          dsimp only
          have h0 : compareVersions re.latest re.latest = 0 := compareVersions_self _
          rw [if_neg (by omega), if_neg (by omega)]
          have hfill : fillMissingVersions
              (overwriteVersions le.versions re.versions) re.versions
              = overwriteVersions le.versions re.versions :=
            fillMissingVersions_id _ _
              (fun q hq => overwriteVersions_mem_presence q.1 q.2 _ le.versions
                (by simpa using hq))
          rw [hfill]
        · have hE : entryResultOf strategy promptId re (some le)
              = ⟨le.latest,
                  (backfillNewer promptId le.latest le.versions re.versions).1⟩ := by
            rw [entryResultOf_some, if_neg h1, if_pos h2, if_neg h3]
          rw [hE, entryResultOf_some]
          dsimp only
          rw [if_neg h1, if_pos h2, if_neg h3]
          have hno : ∀ q ∈ re.versions,
              isNewerMissing le.latest
                (backfillNewer promptId le.latest le.versions re.versions).1 q
                = false := by
            intro q hq
            by_cases hcq : compareVersions q.1 le.latest = 1
            · have hpres := backfill_newer_presence promptId le.latest re.versions
                (le.versions, []) q.1 q.2 (by simpa using hq) hcq
              unfold isNewerMissing
              unfold backfillNewer
              simp only at hpres ⊢
              rw [hpres]
              rfl
            · unfold isNewerMissing
              have : (compareVersions q.1 le.latest == 1) = false := by
                simpa using hcq
              rw [this]
              simp
          have hbf : backfillNewer promptId le.latest
              (backfillNewer promptId le.latest le.versions re.versions).1
              re.versions
              = ((backfillNewer promptId le.latest le.versions re.versions).1, []) :=
            backfill_id promptId le.latest re.versions
              (backfillNewer promptId le.latest le.versions re.versions).1 [] hno
          rw [hbf]
      · have hE : entryResultOf strategy promptId re (some le)
            = ⟨le.latest, fillMissingVersions le.versions re.versions⟩ := by
          rw [entryResultOf_some, if_neg h1, if_neg h2]
        rw [hE, entryResultOf_some]
        dsimp only
        rw [if_neg h1, if_neg h2]
        have hfill : fillMissingVersions
            (fillMissingVersions le.versions re.versions) re.versions
            = fillMissingVersions le.versions re.versions :=
          fillMissingVersions_id _ _
            (fun q hq => fillMissingVersions_mem_presence q.1 q.2 _ le.versions
              (by simpa using hq))
        rw [hfill]

theorem mergeFold_noop (strategy : String) (rsv : Option String) :
    ∀ (L : Registry) (acc : MergeState × MergeResult),
      (keysA acc.1.registry).Nodup →
      (∀ p ∈ L, ∃ e, lookupA p.1 acc.1.registry = some e ∧
        entryResultOf strategy p.1 p.2 (some e) = e) →
      (L.foldl (mergeEntryStep strategy rsv) acc).1.registry
        = acc.1.registry := by
  intro L
  induction L with
  | nil => intro acc _ _; rfl
  | cons q rest ih =>
    intro acc hnd h
    obtain ⟨e, he, habs⟩ := h q (List.mem_cons_self q rest)
    have hstep : (mergeEntryStep strategy rsv acc q).1.registry
        = acc.1.registry := by
      rw [mergeEntryStep_registry, he, habs]
      exact insertA_of_lookup_eq q.1 e acc.1.registry hnd he
    rw [List.foldl_cons, ih _ (by rw [hstep]; exact hnd) ?_, hstep]
    intro p hp
    obtain ⟨e', he', habs'⟩ := h p (List.mem_cons_of_mem q hp)
    exact ⟨e', by rw [hstep]; exact he', habs'⟩

/-- C2: merge is idempotent — a second merge of the same remote document
with the same strategy leaves the local registry document exactly as the
first merge left it and reports `newPrompts = 0` (warnings may repeat; the
schema-version metadata is registry metadata, not part of the local
document). -/
theorem c2_merge_idempotent (strategy : String) (st : MergeState)
    (remote : Registry) (rsv : Option String)
    (hndL : (keysA st.registry).Nodup) (hndR : (keysA remote).Nodup) :
    (mergeRegistries strategy (mergeRegistries strategy st remote rsv).1
        remote rsv).1.registry
      = (mergeRegistries strategy st remote rsv).1.registry ∧
    (mergeRegistries strategy (mergeRegistries strategy st remote rsv).1
        remote rsv).2.newPrompts = 0 := by
  have hnd1 : (keysA (mergeRegistries strategy st remote rsv).1.registry).Nodup := by
    unfold mergeRegistries
    exact mergeFold_nodup strategy rsv remote (st, ⟨0, 0, [], []⟩) hndL
  have habs : ∀ p ∈ remote,
      ∃ e, lookupA p.1 (mergeRegistries strategy st remote rsv).1.registry
          = some e ∧
        entryResultOf strategy p.1 p.2 (some e) = e := by
    intro p hp
    refine ⟨entryResultOf strategy p.1 p.2 (lookupA p.1 st.registry), ?_, ?_⟩
    · exact merge_final_lookup strategy rsv st remote p.1 p.2 hndR
        (by simpa using hp)
    · exact entryResultOf_absorb strategy p.1 p.2 (lookupA p.1 st.registry)
  constructor
  · conv_lhs => unfold mergeRegistries
    exact mergeFold_noop strategy rsv remote
      ((mergeRegistries strategy st remote rsv).1, ⟨0, 0, [], []⟩) hnd1 habs
  · conv_lhs => unfold mergeRegistries
    exact mergeFold_newPrompts_const strategy rsv remote
      ((mergeRegistries strategy st remote rsv).1, ⟨0, 0, [], []⟩)
      (fun p hp => by
        obtain ⟨e, he, _⟩ := habs p hp
        rw [he]; rfl)

/-! ### Schema-version bookkeeping (C4) -/

theorem mergeFold_schema_keep (strategy : String) (sv : String) :
    ∀ (L : Registry) (acc : MergeState × MergeResult),
      acc.1.schemaVersion = sv →
      (L.foldl (mergeEntryStep strategy (some sv)) acc).1.schemaVersion = sv := by
  intro L
  induction L with
  | nil => intro acc h; exact h
  | cons q rest ih =>
    intro acc h
    rw [List.foldl_cons]
    refine ih _ ?_
    rw [mergeEntryStep_schemaVersion, h]
    have h0 : compareVersions sv sv = 0 := compareVersions_self sv
    by_cases hq : (lookupA q.1 acc.1.registry).isSome = true <;>
      simp [hq, h0]

theorem mergeFold_schema_inv (strategy : String) (sv : String) :
    ∀ (L : Registry) (acc : MergeState × MergeResult),
      (L.foldl (mergeEntryStep strategy (some sv)) acc).1.schemaVersion
          = acc.1.schemaVersion ∨
      (L.foldl (mergeEntryStep strategy (some sv)) acc).1.schemaVersion = sv := by
  intro L
  induction L with
  | nil => intro acc; exact Or.inl rfl
  | cons q rest ih =>
    intro acc
    rw [List.foldl_cons]
    have hstep : (mergeEntryStep strategy (some sv) acc q).1.schemaVersion
        = acc.1.schemaVersion ∨
        (mergeEntryStep strategy (some sv) acc q).1.schemaVersion = sv := by
      rw [mergeEntryStep_schemaVersion]
      by_cases hq : (lookupA q.1 acc.1.registry).isSome = true
      · by_cases hc : compareVersions sv acc.1.schemaVersion > 0 <;>
          simp [hq, hc]
      · simp [hq]
    rcases ih (mergeEntryStep strategy (some sv) acc q) with h | h
    · rcases hstep with h' | h'
      · exact Or.inl (h.trans h')
      · exact Or.inr (h.trans h')
    · exact Or.inr h

/-- C4 counterexample: the schema-version bookkeeping sits inside the
per-prompt loop (after the new-prompt `continue`), so a remote document
with no prompt entries — or one whose only prompts are new to the local
registry — does not advance the recorded schema version even though its
`schemaVersion` is strictly newer. -/
theorem c4_schema_update_counterexample :
    compareVersions "2.0" "1.0" = 1 ∧
    (mergeRegistries "prefer-local" ⟨[], "1.0"⟩ [] (some "2.0")).1.schemaVersion
      = "1.0" ∧
    (mergeRegistries "prefer-local" ⟨[], "1.0"⟩
        [("p", ⟨"1.0.0", [("1.0.0", ⟨"d", "t", "c", [], "1.0.0", none⟩)]⟩)]
        (some "2.0")).1.schemaVersion = "1.0" ∧
    ("1.0" : String) ≠ "2.0" := by
  refine ⟨by decide, rfl, by decide, by decide⟩

/-- C4 (amended): when the remote document's schema version is strictly
newer than the locally recorded one, the merge advances the local
schema-version bookkeeping to the remote value — provided at least one
remote prompt id is already present in the local registry (the update is
executed inside the per-prompt loop and skipped by the new-prompt
`continue`, so a remote document with no entries, or only new entries,
leaves the recorded schema version unchanged). -/
theorem c4_schema_update_amended (strategy : String) (st : MergeState)
    (remote : Registry) (sv : String)
    (hpresent : ∃ p ∈ remote, (lookupA p.1 st.registry).isSome = true)
    (hnewer : compareVersions sv st.schemaVersion = 1) :
    (mergeRegistries strategy st remote (some sv)).1.schemaVersion = sv := by
  obtain ⟨p, hp, hps⟩ := hpresent
  obtain ⟨L1, L2, hsplit⟩ := List.append_of_mem hp
  subst hsplit
  unfold mergeRegistries
  rw [List.foldl_append, List.foldl_cons]
  apply mergeFold_schema_keep
  rw [mergeEntryStep_schemaVersion]
  have hpres1 : (lookupA p.1
      (List.foldl (mergeEntryStep strategy (some sv)) (st, ⟨0, 0, [], []⟩)
        L1).1.registry).isSome = true :=
    mergeFold_presence strategy (some sv) p.1 L1 (st, ⟨0, 0, [], []⟩) hps
  rw [if_pos hpres1]
  have hnewer' : compareVersions sv
      ((st, (⟨0, 0, [], []⟩ : MergeResult)).1.schemaVersion) = 1 := hnewer
  rcases mergeFold_schema_inv strategy sv L1 (st, ⟨0, 0, [], []⟩) with h | h
  · rw [h]
    rw [if_pos (by omega)]
  · rw [h]
    have h0 : compareVersions sv sv = 0 := compareVersions_self sv
    rw [if_neg (by omega)]

/-- Witness for C4 (amended): a concrete merge where one remote id is
present locally advances the schema version. -/
theorem c4_schema_update_amended_witness :
    (mergeRegistries "prefer-local"
        ⟨[("p", ⟨"1.0.0", [("1.0.0", ⟨"d", "t", "c", [], "1.0.0", none⟩)]⟩)], "1.0"⟩
        [("p", ⟨"1.0.0", [("1.0.0", ⟨"d", "t", "c", [], "1.0.0", none⟩)]⟩)]
        (some "2.0")).1.schemaVersion = "2.0" :=
  c4_schema_update_amended "prefer-local"
    ⟨[("p", ⟨"1.0.0", [("1.0.0", ⟨"d", "t", "c", [], "1.0.0", none⟩)]⟩)], "1.0"⟩
    [("p", ⟨"1.0.0", [("1.0.0", ⟨"d", "t", "c", [], "1.0.0", none⟩)]⟩)]
    "2.0"
    ⟨("p", ⟨"1.0.0", [("1.0.0", ⟨"d", "t", "c", [], "1.0.0", none⟩)]⟩),
      by decide, by decide⟩
    (by decide)

/-! ### Concrete data for witnesses -/

/-- A sample version record used by the concrete witnesses. -/
def sampleRecord (v : String) : VersionRecord := ⟨"d", "t", "c", [], v, none⟩

/-- Witness for C1: the theorem applied to a concrete one-prompt registry
whose remote entry is strictly newer. -/
theorem c1_merge_remote_newer_witness :
    (mergeRegistries "prefer-remote"
        ⟨[("p", ⟨"1.0.0", [("1.0.0", sampleRecord "1.0.0")]⟩)], "1.0"⟩
        [("p", ⟨"2.0.0", [("2.0.0", sampleRecord "2.0.0")]⟩)]
        none).2.updatedPrompts
      = ([("p", (⟨"2.0.0", [("2.0.0", sampleRecord "2.0.0")]⟩ : PromptEntry))].filter
          (remoteNewerPred
            [("p", ⟨"1.0.0", [("1.0.0", sampleRecord "1.0.0")]⟩)])).length :=
  (c1_merge_remote_newer
    ⟨[("p", ⟨"1.0.0", [("1.0.0", sampleRecord "1.0.0")]⟩)], "1.0"⟩
    [("p", ⟨"2.0.0", [("2.0.0", sampleRecord "2.0.0")]⟩)]
    none "p"
    ⟨"1.0.0", [("1.0.0", sampleRecord "1.0.0")]⟩
    ⟨"2.0.0", [("2.0.0", sampleRecord "2.0.0")]⟩
    (by decide) (by decide) (by decide) (by decide) (by decide)).2.1

/-- Witness for C2: idempotence at a concrete local/remote pair. -/
theorem c2_merge_idempotent_witness :
    (mergeRegistries "prefer-local"
        (mergeRegistries "prefer-local" ⟨[], "1.0"⟩
          [("q", ⟨"1.0.0", [("1.0.0", sampleRecord "1.0.0")]⟩)] none).1
        [("q", ⟨"1.0.0", [("1.0.0", sampleRecord "1.0.0")]⟩)] none).1.registry
      = (mergeRegistries "prefer-local" ⟨[], "1.0"⟩
          [("q", ⟨"1.0.0", [("1.0.0", sampleRecord "1.0.0")]⟩)] none).1.registry ∧
    (mergeRegistries "prefer-local"
        (mergeRegistries "prefer-local" ⟨[], "1.0"⟩
          [("q", ⟨"1.0.0", [("1.0.0", sampleRecord "1.0.0")]⟩)] none).1
        [("q", ⟨"1.0.0", [("1.0.0", sampleRecord "1.0.0")]⟩)] none).2.newPrompts
      = 0 :=
  c2_merge_idempotent "prefer-local" ⟨[], "1.0"⟩
    [("q", ⟨"1.0.0", [("1.0.0", sampleRecord "1.0.0")]⟩)] none
    (by decide) (by decide)

/-! ## TrustPolicy and the fetch gate (`isTrustedDomain`,
`fetchRemoteRegistry` lines 322-348)

The WHATWG `URL` constructor is a platform builtin; `parseURL` models it
for the `scheme://host[:port][/path]` shapes that reach this code,
returning `none` exactly when the constructor would throw a `TypeError`.
-/

deriving instance DecidableEq for Except

/-- Errors thrown by the modelled JS code: a `SyncError` (carrying its
`code` and `message`) or a raw `TypeError` from a runtime builtin. -/
inductive JsError where
  | syncError (code : String) (message : String)
  | typeError (message : String)
deriving DecidableEq

/-- The fields of a parsed URL that the trust check reads. -/
structure ParsedURL where
  protocol : String
  hostname : String
deriving DecidableEq

/-- JS `s.split(sep)` for a single-character separator, over strings. -/
def splitOnCharS (sep : Char) (s : String) : List String :=
  (splitOnChar sep s.toList []).map List.asString

/-- Splits at the first `://`, returning the scheme part and the rest. -/
def findSchemeSplit : List Char → Option (List Char × List Char)
  | [] => none
  | ':' :: '/' :: '/' :: rest => some ([], rest)
  | c :: rest =>
    match findSchemeSplit rest with
    | some (pre, post) => some (c :: pre, post)
    | none => none

/-- Model of `new URL(s)` for `scheme://host` URLs: fails (the constructor
throws) when there is no `://`, the scheme is empty or not alphabetic, or
the host part is empty.  Scheme and host are lower-cased as the URL
constructor does. -/
def parseURL (s : String) : Option ParsedURL :=
  match findSchemeSplit s.toList with
  | some (scheme, rest) =>
    if scheme ≠ [] ∧ scheme.all Char.isAlpha ∧ rest ≠ [] then
      let hostport := rest.takeWhile
        (fun c => !(c == '/' || c == '?' || c == '#'))
      let host := hostport.takeWhile (fun c => !(c == ':'))
      if host = [] then none
      else some ⟨(scheme.map Char.toLower).asString ++ ":",
        (host.map Char.toLower).asString⟩
    else none
  | none => none

/-- The `security` section of the configuration. -/
structure SecurityConfig where
  trustedDomains : List String
  requireHttps : Bool
deriving DecidableEq

/-- The built-in default security configuration (DEFAULT_CONFIG.security). -/
def defaultSecurity : SecurityConfig :=
  ⟨["githubusercontent.com", "github.com", "cdn.jsdelivr.net",
    "raw.githubusercontent.com", "unpkg.com", "jsdelivr.net"], true⟩

/-- `isTrustedDomain(url)`: false when the URL fails to parse; false when
HTTPS is required and the protocol is not `https:`; otherwise true iff the
hostname equals, or is a subdomain of, a trusted domain. -/
def isTrustedDomain (cfg : SecurityConfig) (url : String) : Bool :=
  match parseURL url with
  | none => false
  | some u =>
    if cfg.requireHttps ∧ u.protocol ≠ "https:" then false
    else cfg.trustedDomains.any
      (fun domain => u.hostname = domain ∨
        ("." ++ domain).toList.isSuffixOf u.hostname.toList)

/-- The hard gate at the top of `fetchRemoteRegistry`, before any network
work: `if (!isTrustedDomain(url)) throw new SyncError('CERTIFICATE_ERROR',
`Untrusted domain: ${new URL(url).hostname}`, ...)`.  Constructing the
message itself evaluates `new URL(url)`, which throws a `TypeError` when
the URL does not parse — in that case the `SyncError` is never built. -/
def fetchGuard (cfg : SecurityConfig) (url : String) : Except JsError Unit :=
  if isTrustedDomain cfg url = false then
    match parseURL url with
    | none => Except.error (JsError.typeError "Invalid URL")
    | some u =>
      Except.error (JsError.syncError "CERTIFICATE_ERROR"
        ("Untrusted domain: " ++ u.hostname))
  else Except.ok ()

/-- C5 (code bug): the trust gate runs before any network attempt, and for
an untrusted URL that parses it throws a CERTIFICATE_ERROR SyncError — but
for a URL that fails to parse, evaluating `new URL(url)` inside the error
message throws a TypeError first, so the caller never receives the
CERTIFICATE_ERROR-kind failure the claim promises.  The conjuncts below
evaluate the gate on: an unparseable URL (TypeError, not a SyncError); a
plain-HTTP allow-listed URL (CERTIFICATE_ERROR); an HTTPS URL with an
untrusted host (CERTIFICATE_ERROR); a subdomain of an allow-listed domain
(accepted). -/
theorem c5_trust_gate_eval :
    fetchGuard defaultSecurity "not a url"
      = Except.error (JsError.typeError "Invalid URL") ∧
    (∀ m : String, fetchGuard defaultSecurity "not a url"
      ≠ Except.error (JsError.syncError "CERTIFICATE_ERROR" m)) ∧
    fetchGuard defaultSecurity "http://github.com/x"
      = Except.error (JsError.syncError "CERTIFICATE_ERROR"
          "Untrusted domain: github.com") ∧
    fetchGuard defaultSecurity "https://evil.example/x"
      = Except.error (JsError.syncError "CERTIFICATE_ERROR"
          "Untrusted domain: evil.example") ∧
    fetchGuard defaultSecurity "https://raw.githubusercontent.com/a/b.json"
      = Except.ok () := by
  refine ⟨by decide, ?_, by decide, by decide, by decide⟩
  intro m h
  have : fetchGuard defaultSecurity "not a url"
      = Except.error (JsError.typeError "Invalid URL") := by decide
  rw [this] at h
  simp at h

/-! ## RemoteFetcher (`fetchRemoteRegistry`, index.mjs lines 350-411)

The model keeps the retry loop and the per-attempt response processing;
timers, backoff delays and the progress callback are timing side effects
with no bearing on the claims.  The network is an environment `env`
mapping the attempt number (1-based, as in the source) to that attempt's
outcome.  The loop result is instrumented with the number of attempts
performed so that retry behaviour is observable. -/

/-- JS `s.includes(pat)` over characters. -/
def containsSubL (pat : List Char) : List Char → Bool
  | [] => pat.isEmpty
  | c :: rest => pat.isPrefixOf (c :: rest) || containsSubL pat rest

/-- JS `String.prototype.includes`. -/
def strContains (s pat : String) : Bool :=
  containsSubL pat.toList s.toList

/-- The parts of a `fetch` response this code reads.  `jsonResult` is the
outcome of `response.json()`: the parse-error message, or the payload
(rendered as its JSON text, so that `JSON.stringify(data).length` is its
length). -/
structure FetchResponse where
  ok : Bool
  status : Nat
  statusText : String
  contentType : String
  jsonResult : Except String String
deriving DecidableEq

/-- One attempt's network outcome: the `fetch` promise rejects, or a
response arrives. -/
inductive AttemptOutcome where
  | reject (message : String)
  | response (r : FetchResponse)
deriving DecidableEq

/-- An error recorded by the loop body: a thrown `SyncError`, or a raw
error (a transport failure or JSON `SyntaxError`). -/
inductive ProcessError where
  | sync (code message : String)
  | raw (message : String)
deriving DecidableEq

/-- `DEFAULT_CONFIG.security.maxPayloadSize`. -/
def maxPayloadSize : Nat := 104857600

/-- The body of one retry-loop iteration (the `try` block): non-2xx
status throws NETWORK_ERROR; a content type without `application/json`
throws INVALID_SCHEMA; a JSON parse failure is a raw error; an oversized
payload throws QUOTA_EXCEEDED; otherwise the data is returned. -/
def processAttempt (r : AttemptOutcome) : Except ProcessError String :=
  match r with
  | AttemptOutcome.reject m => Except.error (ProcessError.raw m)
  | AttemptOutcome.response r =>
    if r.ok = false then
      Except.error (ProcessError.sync "NETWORK_ERROR"
        ("HTTP " ++ toString r.status ++ ": " ++ r.statusText))
    else if strContains r.contentType "application/json" = false then
      Except.error (ProcessError.sync "INVALID_SCHEMA"
        ("Invalid content type: " ++ r.contentType))
    else
      match r.jsonResult with
      | Except.error m => Except.error (ProcessError.raw m)
      | Except.ok data =>
        if data.length > maxPayloadSize then
          Except.error (ProcessError.sync "QUOTA_EXCEEDED"
            ("Payload too large: " ++ toString data.length ++ " bytes"))
        else Except.ok data

/-- The error surfaced after the loop:
`lastError instanceof SyncError ? lastError : new SyncError('NETWORK_ERROR',
lastError.message || 'Network request failed')`.  With no attempt at all
(`lastError` undefined) reading `.message` throws a TypeError. -/
def finalizeFetchError : Option ProcessError → JsError
  | some (ProcessError.sync c m) => JsError.syncError c m
  | some (ProcessError.raw m) =>
    JsError.syncError "NETWORK_ERROR"
      (if m = "" then "Network request failed" else m)
  | none => JsError.typeError "Cannot read properties of undefined"

/-- The retry loop `for (let attempt = 1; attempt <= retryAttempts;
attempt++)`, instrumented with the count of attempts actually performed.
`remaining` is `retryAttempts - attempt + 1`; the catch block records the
error and continues — whether or not the attempt had received a response. -/
def fetchLoop (env : Nat → AttemptOutcome) :
    Nat → Nat → Option ProcessError → Nat → (Except JsError String) × Nat
  | 0, _, lastError, made => (Except.error (finalizeFetchError lastError), made)
  | remaining + 1, attempt, _lastError, made =>
    match processAttempt (env attempt) with
    | Except.ok data => (Except.ok data, made + 1)
    | Except.error e => fetchLoop env remaining (attempt + 1) (some e) (made + 1)

/-- `fetchRemoteRegistry` past the trust gate: run up to `retryAttempts`
attempts, return the first success, else the wrapped last error. -/
def fetchWithRetries (env : Nat → AttemptOutcome) (retryAttempts : Nat) :
    (Except JsError String) × Nat :=
  fetchLoop env retryAttempts 1 none 0

/-- C6 counterexample: a fetch whose every attempt receives a successful
HTTP response with a non-JSON content type performs all three configured
attempts — the catch block retries after post-response validation
failures — so "no further attempt is made" is false; and when the later
attempts fail differently (transport errors), the caller observes the
last attempt's NETWORK_ERROR, not the first attempt's INVALID_SCHEMA. -/
theorem c6_retry_counterexample :
    processAttempt (AttemptOutcome.response ⟨true, 200, "OK", "text/html",
        Except.ok "x"⟩)
      = Except.error (ProcessError.sync "INVALID_SCHEMA"
          "Invalid content type: text/html") ∧
    (fetchWithRetries (fun _ => AttemptOutcome.response
        ⟨true, 200, "OK", "text/html", Except.ok "x"⟩) 3).2 = 3 ∧
    (fetchWithRetries (fun _ => AttemptOutcome.response
        ⟨true, 200, "OK", "text/html", Except.ok "x"⟩) 3).2 ≠ 1 ∧
    (fetchWithRetries (fun i =>
        if i = 1 then
          AttemptOutcome.response ⟨true, 200, "OK", "text/html", Except.ok "x"⟩
        else AttemptOutcome.reject "socket hang up") 3).1
      = Except.error (JsError.syncError "NETWORK_ERROR" "socket hang up") := by
  refine ⟨by decide, by decide, by decide, by decide⟩

theorem fetchLoop_all_fail (env : Nat → AttemptOutcome) :
    ∀ (remaining attempt : Nat) (le : Option ProcessError) (made : Nat),
      (∀ i, attempt ≤ i → i < attempt + remaining →
        ∃ e, processAttempt (env i) = Except.error e) →
      1 ≤ remaining →
      ∃ e, processAttempt (env (attempt + remaining - 1)) = Except.error e ∧
        fetchLoop env remaining attempt le made
          = (Except.error (finalizeFetchError (some e)), made + remaining) := by
  intro remaining
  induction remaining with
  | zero => intro attempt le made _ h1; omega
  | succ r ih =>
    intro attempt le made hfail _
    obtain ⟨e₀, he₀⟩ := hfail attempt (le_refl attempt) (by omega)
    cases r with
    | zero =>
      refine ⟨e₀, by simpa using he₀, ?_⟩
      show fetchLoop env 1 attempt le made = _
      unfold fetchLoop
      rw [he₀]
      show fetchLoop env 0 (attempt + 1) (some e₀) (made + 1) = _
      unfold fetchLoop
      rfl
    | succ r' =>
      obtain ⟨e, he, hl⟩ := ih (attempt + 1) (some e₀) (made + 1)
        (fun i h1 h2 => hfail i (by omega) (by omega)) (by omega)
      refine ⟨e, ?_, ?_⟩
      · have : attempt + 1 + (r' + 1) - 1 = attempt + (r' + 1 + 1) - 1 := by omega
        rw [this] at he
        exact he
      · show fetchLoop env (r' + 1 + 1) attempt le made = _
        unfold fetchLoop
        rw [he₀]
        show fetchLoop env (r' + 1) (attempt + 1) (some e₀) (made + 1) = _
        rw [hl]
        have : made + 1 + (r' + 1) = made + (r' + 1 + 1) := by omega
        rw [this]

/-- C6 (amended): the fetch does retry after a successful HTTP response
whose post-response validation fails — the catch block treats every thrown
error alike — so when every attempt fails (for any mix of transport and
validation errors), all `retryAttempts` attempts are performed and the
caller observes the last attempt's error (wrapped as a SyncError), not
necessarily the first validation error. -/
theorem c6_retry_amended (env : Nat → AttemptOutcome) (n : Nat)
    (hn : 1 ≤ n)
    (hfail : ∀ i, 1 ≤ i → i ≤ n → ∃ e, processAttempt (env i) = Except.error e) :
    (fetchWithRetries env n).2 = n ∧
    ∃ e, processAttempt (env n) = Except.error e ∧
      (fetchWithRetries env n).1
        = Except.error (finalizeFetchError (some e)) := by
  obtain ⟨e, he, hl⟩ := fetchLoop_all_fail env n 1 none 0
    (fun i h1 h2 => hfail i h1 (by omega)) hn
  have hidx : 1 + n - 1 = n := by omega
  rw [hidx] at he
  unfold fetchWithRetries
  rw [hl]
  exact ⟨by omega, e, he, rfl⟩

/-- Witness for C6 (amended): three attempts with a validation failure
then transport failures. -/
theorem c6_retry_amended_witness :
    (fetchWithRetries (fun i =>
        if i = 1 then
          AttemptOutcome.response ⟨true, 200, "OK", "text/html", Except.ok "x"⟩
        else AttemptOutcome.reject "socket hang up") 3).2 = 3 :=
  (c6_retry_amended (fun i =>
      if i = 1 then
        AttemptOutcome.response ⟨true, 200, "OK", "text/html", Except.ok "x"⟩
      else AttemptOutcome.reject "socket hang up") 3
    (by decide)
    (fun i h1 h2 => by
      interval_cases i
      · exact ⟨ProcessError.sync "INVALID_SCHEMA" "Invalid content type: text/html",
          by decide⟩
      · exact ⟨ProcessError.raw "socket hang up", by decide⟩
      · exact ⟨ProcessError.raw "socket hang up", by decide⟩)).1

/-! ## SchemaValidator, persistence and the sync pipeline
(`validateRemoteSchema` lines 418-454, `saveLocalRegistry` lines 538-545,
`sync` lines 553-659)

The typed model makes the dynamic shape checks of `validateRemoteSchema`
("registry must be an object", "must contain a prompts object", "versions
must be an object", required-fields presence) hold by construction; what
remains observable is the falsy-`latest` check and the
latest-version-present check, fail-fast in entry order.  `sync` is
modelled on its forced-fetch path (cache miss), with the network and the
filesystem as an environment; timers, progress callbacks and cache writes
are side effects with no bearing on the claims. -/

/-- A fetched remote registry document. -/
structure RemoteDoc where
  prompts : Registry
  schemaVersion : Option String
deriving DecidableEq

/-- Per-entry validation: a falsy `latest` or a `latest` missing from
`versions` raises INVALID_SCHEMA. -/
def validateEntry (promptId : String) (entry : PromptEntry) :
    Except JsError Unit :=
  if entry.latest = "" then
    Except.error (JsError.syncError "INVALID_SCHEMA"
      ("Prompt " ++ promptId ++ " missing valid \"latest\" version"))
  else
    match lookupA entry.latest entry.versions with
    | none =>
      Except.error (JsError.syncError "INVALID_SCHEMA"
        ("Prompt " ++ promptId ++ " latest version \"" ++ entry.latest
          ++ "\" not found"))
    | some _ => Except.ok ()

/-- Fail-fast validation of every entry, in document order. -/
def validatePromptsList : Registry → Except JsError Unit
  | [] => Except.ok ()
  | (id, e) :: rest =>
    match validateEntry id e with
    | Except.error er => Except.error er
    | Except.ok _ => validatePromptsList rest

/-- `validateRemoteSchema(data)`. -/
def validateRemoteSchema (d : RemoteDoc) : Except JsError Unit :=
  validatePromptsList d.prompts

/-- `saveLocalRegistry()`: a failed `fs.writeFileSync` is rethrown as
`new SyncError('QUOTA_EXCEEDED', `Failed to save registry:
${error.message}`)`.  The write outcome is the environment. -/
def saveLocalRegistry (saveResult : Except String Unit) : Except JsError Unit :=
  match saveResult with
  | Except.ok _ => Except.ok ()
  | Except.error m =>
    Except.error (JsError.syncError "QUOTA_EXCEEDED"
      ("Failed to save registry: " ++ m))

/-- The environment of one `sync` call: the outcome of
`fetchRemoteRegistry` and of the registry-file write. -/
structure SyncEnv where
  fetchResult : Except JsError RemoteDoc
  saveResult : Except String Unit
deriving DecidableEq

/-- The observable fields of the `sync` result object. -/
structure SyncResultModel where
  success : Bool
  newPrompts : Nat
  updatedPrompts : Nat
  errors : List JsError
  warnings : List String
deriving DecidableEq

/-- The catch-block wrapping: a SyncError is recorded as is, anything else
becomes `new SyncError('UNKNOWN', ...)`. -/
def wrapSyncError : JsError → JsError
  | JsError.syncError c m => JsError.syncError c m
  | JsError.typeError m => JsError.syncError "UNKNOWN" m

/-- `result.remoteVersion = remoteData.schemaVersion || '2.0'`. -/
def remoteVersionOf (d : RemoteDoc) : String :=
  match d.schemaVersion with
  | some s => if s = "" then "2.0" else s
  | none => "2.0"

/-- The forced-fetch path of `sync`: fetch, validate, merge, and persist
(only when the merge produced new or updated prompts).  Errors land in
`result.errors` with `success = false`, as under the `warn`/`silent`
error policies; under `throw` the same error is raised.  Merge effects
on the local state are not rolled back by a later save failure. -/
def syncModel (st : MergeState) (strategy : String) (env : SyncEnv) :
    SyncResultModel × MergeState :=
  match env.fetchResult with
  | Except.error e => (⟨false, 0, 0, [wrapSyncError e], []⟩, st)
  | Except.ok remoteData =>
    match validateRemoteSchema remoteData with
    | Except.error e => (⟨false, 0, 0, [wrapSyncError e], []⟩, st)
    | Except.ok _ =>
      let mr := mergeRegistries strategy st remoteData.prompts
        (some (remoteVersionOf remoteData))
      if mr.2.newPrompts > 0 ∨ mr.2.updatedPrompts > 0 then
        match saveLocalRegistry env.saveResult with
        | Except.error e =>
          (⟨false, mr.2.newPrompts, mr.2.updatedPrompts,
            [wrapSyncError e], mr.2.warnings⟩, mr.1)
        | Except.ok _ =>
          (⟨true, mr.2.newPrompts, mr.2.updatedPrompts, [], mr.2.warnings⟩,
            mr.1)
      else
        (⟨true, mr.2.newPrompts, mr.2.updatedPrompts, [], mr.2.warnings⟩, mr.1)

/-- C10: when persisting the merged registry fails, `sync` surfaces a
SyncError whose kind is QUOTA_EXCEEDED — not a storage-specific or
UNKNOWN kind — with the underlying error message embedded, and reports
failure. -/
theorem c10_save_error_kind (st : MergeState) (strategy : String)
    (remote : RemoteDoc) (msg : String)
    (hvalid : validateRemoteSchema remote = Except.ok ())
    (hcounts :
      (mergeRegistries strategy st remote.prompts
        (some (remoteVersionOf remote))).2.newPrompts > 0 ∨
      (mergeRegistries strategy st remote.prompts
        (some (remoteVersionOf remote))).2.updatedPrompts > 0) :
    (syncModel st strategy ⟨Except.ok remote, Except.error msg⟩).1.errors
      = [JsError.syncError "QUOTA_EXCEEDED"
          ("Failed to save registry: " ++ msg)] ∧
    (syncModel st strategy ⟨Except.ok remote, Except.error msg⟩).1.success
      = false := by
  constructor <;>
    simp [syncModel, hvalid, saveLocalRegistry, wrapSyncError, hcounts]

/-- Witness for C10: a concrete sync whose merge adds one prompt and whose
registry write fails with "disk full". -/
theorem c10_save_error_kind_witness :
    (syncModel ⟨[], "1.0"⟩ "prefer-local"
        ⟨Except.ok ⟨[("q", ⟨"1.0.0", [("1.0.0", sampleRecord "1.0.0")]⟩)],
          some "2.0"⟩,
         Except.error "disk full"⟩).1.errors
      = [JsError.syncError "QUOTA_EXCEEDED"
          "Failed to save registry: disk full"] :=
  (c10_save_error_kind ⟨[], "1.0"⟩ "prefer-local"
    ⟨[("q", ⟨"1.0.0", [("1.0.0", sampleRecord "1.0.0")]⟩)], some "2.0"⟩
    "disk full" (by decide) (Or.inl (by decide))).1

/-! ## RegistryAccessor: `get` (index.mjs lines 760-803)

`get` reads `options` only for the auto-sync-on-miss fallback
(`syncOnMissing`), which triggers a network sync; the model covers the
local path (the fallback disabled), which is the path every interpolation
claim concerns.  `String.prototype.replace` with a global literal-text
regex is modelled as left-to-right non-overlapping literal replacement
(the replacement text is not rescanned), and the unsubstituted-variable
scan models `/\x7b\x7b([^\x7d]+)\x7d\x7d/g`. -/

/-- Global literal replacement, scanning left to right without rescanning
replaced text.  `skip` counts characters of a just-matched occurrence
still to be consumed. -/
def replaceAllAux (pat repl : List Char) : Nat → List Char → List Char
  | _ + 1, [] => []
  | skip + 1, _ :: rest => replaceAllAux pat repl skip rest
  | 0, [] => []
  | 0, c :: rest =>
    if pat ≠ [] ∧ pat.isPrefixOf (c :: rest) then
      repl ++ replaceAllAux pat repl (pat.length - 1) rest
    else c :: replaceAllAux pat repl 0 rest

/-- `s.replace(new RegExp(escapedPat, 'g'), repl)` for a literal pattern. -/
def replaceAllS (s pat repl : String) : String :=
  (replaceAllAux pat.toList repl.toList 0 s.toList).asString

/-- The placeholder pattern `\x7b\x7b` ++ name ++ `\x7d\x7d`. -/
def placeholderPat (name : String) : String :=
  ('\x7b' :: '\x7b' :: (name.toList ++ ['\x7d', '\x7d'])).asString

/-- The scanner of `/\x7b\x7b([^\x7d]+)\x7d\x7d/g`: find each non-overlapping
match, returning the captured names in order.  On a failed match the scan
resumes one character after the match start, as the regex engine does.
`fuel` bounds the recursion; every step consumes at least one character,
so `cs.length + 1` is enough. -/
def findPlaceholdersAux : Nat → List Char → List String
  | 0, _ => []
  | _ + 1, [] => []
  | fuel + 1, '\x7b' :: '\x7b' :: rest =>
    let content := rest.takeWhile (fun c => !(c == '\x7d'))
    match rest.drop content.length with
    | '\x7d' :: '\x7d' :: rest2 =>
      if content ≠ [] then
        content.asString :: findPlaceholdersAux fuel rest2
      else findPlaceholdersAux fuel ('\x7b' :: rest)
    | _ => findPlaceholdersAux fuel ('\x7b' :: rest)
  | fuel + 1, _ :: rest => findPlaceholdersAux fuel rest

/-- `prompt.match(/\x7b\x7b([^\x7d]+)\x7d\x7d/g)`, with the `slice(2, -2)`
mapping already applied: the names of the placeholders still present. -/
def findPlaceholders (s : String) : List String :=
  findPlaceholdersAux (s.toList.length + 1) s.toList

/-- A variable value: `some s` a string, `none` a nullish value.  `value ||
''` reads a falsy value as the empty string. -/
def jsStringOrEmpty (v : Option String) : String := v.getD ""

/-- The interpolation loop: `for (const [key, value] of
Object.entries(variables)) prompt = prompt.replace(...)`. -/
def interpolate (template : String) (vars : List (String × Option String)) :
    String :=
  vars.foldl
    (fun t kv => replaceAllS t (placeholderPat kv.1) (jsStringOrEmpty kv.2))
    template

/-- The result object of `get`. -/
structure GetResult where
  id : String
  prompt : String
  description : String
  category : String
  tags : List String
  version : String
deriving DecidableEq

/-- The errors `get` throws. -/
inductive GetError where
  | notFound (id : String)
  | versionNotFound (version baseId : String)
  | missingVariables (names : List String)
deriving DecidableEq

/-- The tail of `get` after version resolution: interpolate, then fail
with the names of every placeholder still present, else return. -/
def renderPrompt (baseId version : String) (promptData : VersionRecord)
    (vars : List (String × Option String)) : Except GetError GetResult :=
  let prompt := interpolate promptData.prompt vars
  let unsub := findPlaceholders prompt
  if unsub ≠ [] then Except.error (GetError.missingVariables unsub)
  else
    Except.ok ⟨baseId ++ "@" ++ version, prompt, promptData.description,
      promptData.category, promptData.tags, promptData.version⟩

/-- `get(id, variables)`: split an optional `@version` suffix, resolve the
entry and version (an empty version string is falsy and resolves to
`latest`), then interpolate. -/
def get (reg : Registry) (id : String)
    (vars : List (String × Option String)) : Except GetError GetResult :=
  let pair :=
    if strContains id "@" then
      match splitOnCharS '@' id with
      | b :: v :: _ => (b, v)
      | _ => (id, "")
    else (id, "")
  match lookupA pair.1 reg with
  | none => Except.error (GetError.notFound id)
  | some base =>
    let version := if pair.2 = "" then base.latest else pair.2
    match lookupA version base.versions with
    | none => Except.error (GetError.versionNotFound version pair.1)
    | some promptData => renderPrompt pair.1 version promptData vars

theorem renderPrompt_ok_no_placeholders (baseId version : String)
    (pd : VersionRecord) (vars : List (String × Option String)) (r : GetResult)
    (h : renderPrompt baseId version pd vars = Except.ok r) :
    findPlaceholders r.prompt = [] := by
  simp only [renderPrompt] at h
  split at h
  · exact absurd h (by simp)
  · rename_i hu
    simp only [Except.ok.injEq] at h
    subst h
    exact not_not.mp hu

theorem renderPrompt_missing_nonempty (baseId version : String)
    (pd : VersionRecord) (vars : List (String × Option String))
    (names : List String)
    (h : renderPrompt baseId version pd vars
      = Except.error (GetError.missingVariables names)) :
    names ≠ [] ∧ names = findPlaceholders (interpolate pd.prompt vars) := by
  simp only [renderPrompt] at h
  split at h
  · rename_i hu
    simp only [Except.error.injEq, GetError.missingVariables.injEq] at h
    subst h
    exact ⟨hu, rfl⟩
  · exact absurd h (by simp)

theorem get_ok_no_placeholders (reg : Registry) (id : String)
    (vars : List (String × Option String)) (r : GetResult)
    (h : get reg id vars = Except.ok r) :
    findPlaceholders r.prompt = [] := by
  simp only [get] at h
  split at h
  · exact absurd h (by simp)
  · split at h
    · exact absurd h (by simp)
    · exact renderPrompt_ok_no_placeholders _ _ _ _ _ h

theorem get_missing_nonempty (reg : Registry) (id : String)
    (vars : List (String × Option String)) (names : List String)
    (h : get reg id vars = Except.error (GetError.missingVariables names)) :
    names ≠ [] := by
  simp only [get] at h
  split at h
  · simp at h
  · split at h
    · simp at h
    · exact (renderPrompt_missing_nonempty _ _ _ _ _ h).1

/-- The concrete registry of the claim's example: one prompt `p` with
template "Hello {{name}}" (braces written as their character codes). -/
def c7Registry : Registry :=
  [("p", ⟨"1.0.0", [("1.0.0",
    ⟨"d", "Hello \x7b\x7bname\x7d\x7d", "c", [], "1.0.0", none⟩)]⟩)]

/-- C7: `get` substitutes every `\x7b\x7bk\x7d\x7d` occurrence for each
supplied key (a falsy value substitutes the empty string) and afterwards
fails with a MissingVariables error naming every placeholder still
present in the output — a key absent from the map is an error exactly when
its placeholder survives substitution.  Concretely, on template
"Hello {{name}}": `get("p", {name: "X"})` returns "Hello X";
`get("p", {})` fails naming `name`; `get("p", {name: null})` substitutes
the empty string.  In general a successful `get` leaves no placeholder in
the returned prompt, and every MissingVariables failure names at least
one placeholder — exactly those still present after substitution. -/
theorem c7_get_interpolation :
    get c7Registry "p" [("name", some "X")]
      = Except.ok ⟨"p@1.0.0", "Hello X", "d", "c", [], "1.0.0"⟩ ∧
    get c7Registry "p" []
      = Except.error (GetError.missingVariables ["name"]) ∧
    get c7Registry "p" [("name", none)]
      = Except.ok ⟨"p@1.0.0", "Hello ", "d", "c", [], "1.0.0"⟩ ∧
    (∀ (reg : Registry) (id : String) (vars : List (String × Option String))
        (r : GetResult), get reg id vars = Except.ok r →
      findPlaceholders r.prompt = []) ∧
    (∀ (reg : Registry) (id : String) (vars : List (String × Option String))
        (names : List String),
      get reg id vars = Except.error (GetError.missingVariables names) →
      names ≠ []) := by
  refine ⟨by decide, by decide, by decide, get_ok_no_placeholders,
    get_missing_nonempty⟩

/-- Witness for C7: the no-placeholder postcondition applied to the
claim's concrete example. -/
theorem c7_get_interpolation_witness : findPlaceholders "Hello X" = [] :=
  c7_get_interpolation.2.2.2.1 c7Registry "p" [("name", some "X")]
    ⟨"p@1.0.0", "Hello X", "d", "c", [], "1.0.0"⟩ (by decide)

/-! ## Multi-LLM variants (multi-llm-variants.js)

`getPromptVariant` implements the variant-selection precedence; note that
the `get` of index.mjs never calls it and reads no `model` option
(GetOptions in index.d.ts has no `model` field), even though the README
documents one. -/

/-- The MODEL_CATEGORIES map. -/
def MODEL_CATEGORIES : List (String × String) :=
  [("gpt-4", "gpt"), ("gpt-3.5-turbo", "gpt"), ("claude-3-opus", "claude"),
   ("claude-3-sonnet", "claude"), ("claude-3-haiku", "claude"),
   ("llama-3", "llama"), ("llama-2", "llama"), ("gemini-pro", "gemini"),
   ("mistral-large", "mistral"), ("mixtral", "mistral")]

/-- The category-by-name-prefix table of `getModelCategory`. -/
def categoryPrefixTable : List (String × List String) :=
  [("gpt", ["gpt-4", "gpt-3.5"]), ("claude", ["claude-3", "claude-2"]),
   ("llama", ["llama-3", "llama-2"]), ("gemini", ["gemini"]),
   ("mistral", ["mistral", "mixtral"])]

/-- `getModelCategory(model)`: the direct mapping, else the first category
one of whose name prefixes matches, else "generic". -/
def getModelCategory (model : String) : String :=
  match lookupA model MODEL_CATEGORIES with
  | some c => c
  | none =>
    match categoryPrefixTable.find?
      (fun p => p.2.any (fun pre => pre.toList.isPrefixOf model.toList)) with
    | some p => p.1
    | none => "generic"

/-- A truthy variant read `promptData.variants[k]`: an empty-string
variant is falsy and reads as absent. -/
def variantLookup (vlist : List (String × String)) (k : String) :
    Option String :=
  match lookupA k vlist with
  | some v => if v = "" then none else some v
  | none => none

/-- `getPromptVariant(promptData, model)`: exact model name, else model
category, else "generic", else the base prompt (an absent `variants`
object short-circuits to the base prompt). -/
def getPromptVariant (promptData : VersionRecord) (model : String) : String :=
  match promptData.variants with
  | none => promptData.prompt
  | some vlist =>
    match variantLookup vlist model with
    | some v => v
    | none =>
      match variantLookup vlist (getModelCategory model) with
      | some v => v
      | none =>
        match variantLookup vlist "generic" with
        | some v => v
        | none => promptData.prompt

/-- The version record of the C8 failing input: a base template and a
model-specific variant for the `gpt` category. -/
def c8Record : VersionRecord :=
  ⟨"d", "Base \x7b\x7bx\x7d\x7d", "c", [], "1.0.0",
    some [("gpt", "Var \x7b\x7bx\x7d\x7d")]⟩

/-- C8 (code bug): the variant-selection precedence (exact model name →
model category → "generic" → base template) is implemented by
`getPromptVariant`, but `get` never invokes it and accepts no model
option, so a retrieval for a gpt model still interpolates the base
template: the selection function would pick the `gpt` variant for
"gpt-4", yet `get` returns "Base Y", not "Var Y".  The final conjuncts
evaluate the precedence function itself at each tier. -/
theorem c8_get_ignores_variants :
    get [("q", ⟨"1.0.0", [("1.0.0", c8Record)]⟩)] "q" [("x", some "Y")]
      = Except.ok ⟨"q@1.0.0", "Base Y", "d", "c", [], "1.0.0"⟩ ∧
    getModelCategory "gpt-4" = "gpt" ∧
    getPromptVariant c8Record "gpt-4" = "Var \x7b\x7bx\x7d\x7d" ∧
    interpolate (getPromptVariant c8Record "gpt-4") [("x", some "Y")]
      = "Var Y" ∧
    ("Base Y" : String) ≠ "Var Y" ∧
    getPromptVariant
        ⟨"d", "B", "c", [], "1", some [("gpt-4", "A"), ("gpt", "C"),
          ("generic", "G")]⟩ "gpt-4" = "A" ∧
    getPromptVariant
        ⟨"d", "B", "c", [], "1", some [("gpt", "C"), ("generic", "G")]⟩
        "gpt-4" = "C" ∧
    getPromptVariant
        ⟨"d", "B", "c", [], "1", some [("generic", "G")]⟩ "gpt-4" = "G" ∧
    getPromptVariant ⟨"d", "B", "c", [], "1", some []⟩ "gpt-4" = "B" ∧
    getPromptVariant ⟨"d", "B", "c", [], "1", none⟩ "gpt-4" = "B" := by
  refine ⟨by decide, by decide, by decide, by decide, by decide, by decide,
    by decide, by decide, by decide, by decide⟩

/-! ## RegistryAccessor: `search` (index.mjs lines 834-883)

The metadata rows carry the time-dependent fields `registryFresh`,
`source` and `lastSync` in the source; those depend on wall-clock state
and are not part of any claim, so the model keeps the five data fields.
The asynchronous `syncAndRetrySearch` escape (a Promise in the source) is
the distinguished outcome `syncRetry`. -/

instance : Inhabited VersionRecord := ⟨⟨"", "", "", [], "", none⟩⟩

/-- One row of `allPrompts`, built from an entry's latest version record
(the source would throw on a dangling `latest`; the model totalises with
a default record). -/
structure SearchMetaM where
  id : String
  description : String
  category : String
  tags : List String
  version : String
deriving DecidableEq

/-- The row `allPrompts` builds for one registry entry. -/
def searchMetaOf (baseId : String) (base : PromptEntry) : SearchMetaM :=
  let latestData := (lookupA base.latest base.versions).getD default
  ⟨baseId, latestData.description, latestData.category, latestData.tags,
    latestData.version⟩

/-- An object-form query: the filter fields plus a possibly smuggled
`syncOnEmpty` (spread into `searchOptions`).  `none` models an absent
property. -/
structure SearchFilterQ where
  category : Option String := none
  tags : Option (List String) := none
  id : Option String := none
  syncOnEmpty : Option Bool := none
deriving DecidableEq

/-- A search query: a string or a filter object. -/
inductive SearchQuery where
  | str (s : String)
  | obj (f : SearchFilterQ)
deriving DecidableEq

/-- The `options` argument (`none` models an absent property). -/
structure SearchOptionsM where
  syncOnEmpty : Option Bool := none
deriving DecidableEq

/-- The outcome: a result list, or the asynchronous sync-and-retry path. -/
inductive SearchOutcome where
  | results (xs : List SearchMetaM)
  | syncRetry
deriving DecidableEq

/-- Lower-casing for the case-insensitive string query. -/
def toLowerS (s : String) : String := (s.toList.map Char.toLower).asString

/-- The string-query predicate: case-insensitive substring match on id,
description, category or any tag. -/
def stringMatch (q : String) (p : SearchMetaM) : Bool :=
  let lq := toLowerS q
  strContains (toLowerS p.id) lq || strContains (toLowerS p.description) lq ||
    strContains (toLowerS p.category) lq ||
    p.tags.any (fun t => strContains (toLowerS t) lq)

/-- The object-query filter: truthy `category` must match exactly, a
non-empty `tags` list must all be present, truthy `id` must match
exactly. -/
def objFilterPred (f : SearchFilterQ) (p : SearchMetaM) : Bool :=
  (match f.category with
   | some c => if c = "" then true else p.category = c
   | none => true) &&
  (match f.tags with
   | some ts => if ts.isEmpty then true else ts.all (fun t => p.tags.contains t)
   | none => true) &&
  (match f.id with
   | some i => if i = "" then true else p.id = i
   | none => true)

/-- `search(query, options)`: `searchOptions` merges the query object
under `options`; an object query is filtered only when
`options.syncOnEmpty` is falsy; an empty result with truthy merged
`syncOnEmpty` diverts to the async sync-and-retry path. -/
def search (reg : Registry) (query : SearchQuery) (options : SearchOptionsM) :
    SearchOutcome :=
  let mergedSyncOnEmpty : Option Bool :=
    match query with
    | SearchQuery.obj f =>
      (match options.syncOnEmpty with
       | some b => some b
       | none => f.syncOnEmpty)
    | SearchQuery.str _ => options.syncOnEmpty
  let allPrompts := reg.map (fun p => searchMetaOf p.1 p.2)
  let filtered :=
    match query with
    | SearchQuery.str s => allPrompts.filter (stringMatch s)
    | SearchQuery.obj f =>
      if options.syncOnEmpty = some true then allPrompts
      else allPrompts.filter (objFilterPred f)
  if filtered.isEmpty && (mergedSyncOnEmpty == some true) then
    SearchOutcome.syncRetry
  else SearchOutcome.results filtered

/-- C9 counterexample: on an empty registry, an object query under a
truthy `options.syncOnEmpty` does not return the (empty) list of all
prompts' metadata — it diverts to the async sync-and-retry path. -/
theorem c9_search_sync_on_empty_counterexample :
    search [] (SearchQuery.obj ⟨none, none, none, none⟩) ⟨some true⟩
      = SearchOutcome.syncRetry ∧
    SearchOutcome.syncRetry
      ≠ SearchOutcome.results
          (([] : Registry).map (fun p => searchMetaOf p.1 p.2)) := by
  refine ⟨by decide, by decide⟩

/-- C9 (amended): for an object query, a truthy `options.syncOnEmpty`
bypasses every category/tags/id filter and — provided the registry is
non-empty — returns the metadata of every prompt (an empty registry
diverts to the sync-and-retry path instead); when `syncOnEmpty` is falsy
in both the options and the query object, the filters (exact category,
all-of tags, exact id) are applied and the filtered list is returned. -/
theorem c9_search_sync_on_empty_amended (reg : Registry) (f : SearchFilterQ)
    (options : SearchOptionsM) :
    (reg ≠ [] →
      search reg (SearchQuery.obj f) ⟨some true⟩
        = SearchOutcome.results (reg.map (fun p => searchMetaOf p.1 p.2))) ∧
    (options.syncOnEmpty ≠ some true → f.syncOnEmpty ≠ some true →
      search reg (SearchQuery.obj f) options
        = SearchOutcome.results
            ((reg.map (fun p => searchMetaOf p.1 p.2)).filter
              (objFilterPred f))) := by
  constructor
  · intro hne
    have hmap : (reg.map (fun p => searchMetaOf p.1 p.2)).isEmpty = false := by
      cases reg with
      | nil => exact absurd rfl hne
      | cons a l => rfl
    simp [search, hmap]
  · intro ho hf
    have hmb : ((match options.syncOnEmpty with
        | some b => some b
        | none => f.syncOnEmpty) == some true) = false := by
      cases hos : options.syncOnEmpty with
      | none =>
        cases hfe : f.syncOnEmpty with
        | none => rfl
        | some b =>
          cases b with
          | true => exact absurd hfe hf
          | false => rfl
      | some b =>
        cases b with
        | true => exact absurd hos ho
        | false => rfl
    simp [search, ho, hmb]

/-- Witness for C9 (amended): with `syncOnEmpty` set, even a
non-matching category filter is ignored and every prompt's metadata is
returned; with it absent, the same filter is applied. -/
theorem c9_search_sync_on_empty_amended_witness :
    search [("q", ⟨"1.0.0", [("1.0.0", sampleRecord "1.0.0")]⟩)]
        (SearchQuery.obj ⟨some "zzz", none, none, none⟩) ⟨some true⟩
      = SearchOutcome.results
          ([("q", (⟨"1.0.0", [("1.0.0", sampleRecord "1.0.0")]⟩ : PromptEntry))].map
            (fun p => searchMetaOf p.1 p.2)) ∧
    search [("q", ⟨"1.0.0", [("1.0.0", sampleRecord "1.0.0")]⟩)]
        (SearchQuery.obj ⟨some "zzz", none, none, none⟩) ⟨none⟩
      = SearchOutcome.results
          (([("q", (⟨"1.0.0", [("1.0.0", sampleRecord "1.0.0")]⟩ : PromptEntry))].map
            (fun p => searchMetaOf p.1 p.2)).filter
            (objFilterPred ⟨some "zzz", none, none, none⟩)) :=
  ⟨(c9_search_sync_on_empty_amended
      [("q", ⟨"1.0.0", [("1.0.0", sampleRecord "1.0.0")]⟩)]
      ⟨some "zzz", none, none, none⟩ ⟨none⟩).1 (by decide),
   (c9_search_sync_on_empty_amended
      [("q", ⟨"1.0.0", [("1.0.0", sampleRecord "1.0.0")]⟩)]
      ⟨some "zzz", none, none, none⟩ ⟨none⟩).2 (by decide) (by decide)⟩

end PromptRegistry
